import Mathlib

/-!
Verification of the regex-to-DFA core of the `lag` lexer-generator.

The Rust sources are shallowly embedded: the AST arena (`src/arena.rs`,
`src/regex_ast.rs`) becomes a `List ASTNode` indexed by natural numbers,
`BTreeSet<NodeRef>` becomes `Finset Nat`, `HashMap` becomes either an
association list (when iteration order matters) or an optional-valued
function (when only lookup matters), and Rust panics become `Option`/`Except`
failures.
-/

namespace LagRust

/-- Arena index (`ObjRef(u32)` in `src/arena.rs`). -/
abbrev NodeRef := Nat

/-- AST node (`ASTNode` in the parser's view of `src/regex_ast.rs`).
The snapshot of `regex_ast.rs` names this `ParseTreeNode` and omits the
`Id` class-reference variant that `parser.rs` constructs; the `Id` variant
here follows `parser.rs` (`ASTNode::Id(id_token.lexeme)`). -/
inductive ASTNode where
  | Character (c : Char)
  | Id (name : String)
  | Star (child : NodeRef)
  | Plus (child : NodeRef)
  | Question (child : NodeRef)
  | Concat (left right : NodeRef)
  | Union (left right : NodeRef)
  deriving DecidableEq, Repr

/-- The arena (`Arena<ParseTreeNode>`): an append-only vector of nodes. -/
abbrev ParseTree := List ASTNode

/-- Per-node metadata (`ParseTreeNodeMeta`). -/
structure NodeMeta where
  nullable : Bool
  first_pos : Finset Nat
  last_pos : Finset Nat
  deriving DecidableEq

/-- The value every metadata slot is initialised with in `get_meta`
(`nullable: false, first_pos: BTreeSet::new(), last_pos: BTreeSet::new()`). -/
def mdefault : NodeMeta := ⟨false, ∅, ∅⟩

instance : Inhabited NodeMeta := ⟨mdefault⟩

/-- Child references of a node, used to phrase the arena invariant that
children are appended before their parents. -/
def childrenOf : ASTNode → List Nat
  | .Character _ => []
  | .Id _ => []
  | .Star c => [c]
  | .Plus c => [c]
  | .Question c => [c]
  | .Concat l r => [l, r]
  | .Union l r => [l, r]

/-- Arena well-formedness: every child reference is a strictly smaller index.
This is the invariant maintained by `Arena::add` as used by `parser.rs`
(children are added to the arena before their parents). -/
def WFb (tree : ParseTree) : Bool :=
  (List.range tree.length).all fun i =>
    match tree[i]? with
    | some node => (childrenOf node).all fun c => decide (c < i)
    | none => true

theorem wfb_spec {tree : ParseTree} (h : WFb tree = true) {i : Nat} {node : ASTNode}
    (hi : tree[i]? = some node) {c : Nat} (hc : c ∈ childrenOf node) : c < i := by
  have hilen : i < tree.length := by
    by_contra hge
    rw [List.getElem?_eq_none (Nat.le_of_not_lt hge)] at hi
    exact Option.noConfusion hi
  have := List.all_eq_true.mp h i (List.mem_range.mpr hilen)
  rw [hi] at this
  have := List.all_eq_true.mp this c hc
  exact of_decide_eq_true this

/-- `node_ref` reaches `p` by following child references (the nodes the
recursive `calculate_meta` walk visits from `node_ref`). -/
inductive Reaches (tree : ParseTree) : Nat → Nat → Prop
  | refl (r : Nat) : Reaches tree r r
  | child {r c p : Nat} {node : ASTNode} :
      tree[r]? = some node → c ∈ childrenOf node → Reaches tree c p → Reaches tree r p

theorem Reaches.trans {tree : ParseTree} {a b c : Nat}
    (h1 : Reaches tree a b) (h2 : Reaches tree b c) : Reaches tree a c := by
  induction h1 with
  | refl => exact h2
  | child hget hc _ ih => exact Reaches.child hget hc (ih h2)

theorem reaches_le {tree : ParseTree} (hwf : WFb tree = true) {r p : Nat}
    (h : Reaches tree r p) : p ≤ r := by
  induction h with
  | refl => exact Nat.le_refl _
  | child hget hc _ ih => exact Nat.le_trans ih (Nat.le_of_lt (wfb_spec hwf hget hc))

theorem reaches_lt_length {tree : ParseTree} (hwf : WFb tree = true) {r p : Nat}
    (hr : r < tree.length) (h : Reaches tree r p) : p < tree.length :=
  Nat.lt_of_le_of_lt (reaches_le hwf h) hr

/-- The value `calculate_meta` stores for a node, as a pure function of the
arena: the `nullable`/`firstpos`/`lastpos` recurrences of `get_meta` in
`src/regex_ast.rs`. Ill-formed child references (not strictly smaller) and
out-of-range indices are mapped to the initial metadata; `calculate_meta`
never consults such entries on a well-formed arena. -/
def metaAt (tree : ParseTree) (r : Nat) : NodeMeta :=
  match tree[r]? with
  | some (.Character _) => ⟨false, {r}, {r}⟩
  | some (.Id _) => ⟨false, {r}, {r}⟩
  | some (.Union l rr) =>
      if h : l < r ∧ rr < r then
        let lm := metaAt tree l
        let rm := metaAt tree rr
        ⟨lm.nullable || rm.nullable, lm.first_pos ∪ rm.first_pos, lm.last_pos ∪ rm.last_pos⟩
      else mdefault
  | some (.Concat l rr) =>
      if h : l < r ∧ rr < r then
        let lm := metaAt tree l
        let rm := metaAt tree rr
        ⟨lm.nullable && rm.nullable,
         if lm.nullable then lm.first_pos ∪ rm.first_pos else lm.first_pos,
         if rm.nullable then rm.last_pos ∪ lm.last_pos else rm.last_pos⟩
      else mdefault
  | some (.Star c) =>
      if h : c < r then
        let cm := metaAt tree c
        ⟨true, cm.first_pos, cm.last_pos⟩
      else mdefault
  | some (.Plus c) =>
      if h : c < r then
        let cm := metaAt tree c
        ⟨false, cm.first_pos, cm.last_pos⟩
      else mdefault
  | some (.Question c) =>
      if h : c < r then
        let cm := metaAt tree c
        ⟨true, cm.first_pos, cm.last_pos⟩
      else mdefault
  | none => mdefault
  termination_by r
  decreasing_by
    all_goals first
      | exact h.1
      | exact h.2
      | exact h

/-- One step bound of the recursive in-place walk `calculate_meta` of
`get_meta` (`src/regex_ast.rs` lines 60-135), with an explicit structural
recursion bound `fuel`. The walk recurses into child indices, which on every
arena built by `Arena::add` are strictly smaller than the parent index, so
`fuel = r + 1` always suffices (see `calculate_meta`); recursion into an
ill-formed (non-smaller) child reference is cut off by the same guard that
justifies termination of the Rust recursion. -/
def calcMetaF (tree : ParseTree) : Nat → Nat → List NodeMeta → List NodeMeta
  | 0, _, meta => meta
  | fuel + 1, r, meta =>
    match tree[r]? with
    | some (.Character _) => meta.set r ⟨false, {r}, {r}⟩
    | some (.Id _) =>
        -- Modelled from the spec: the `regex_ast.rs` snapshot's node enum
        -- predates the `Id` variant built by `parser.rs`; the spec's table
        -- row "Character/ClassRef (leaf at position p)" assigns a class
        -- reference the same leaf recurrence as a character.
        meta.set r ⟨false, {r}, {r}⟩
    | some (.Union l rr) =>
        if l < r ∧ rr < r then
          let m2 := calcMetaF tree fuel rr (calcMetaF tree fuel l meta)
          m2.set r ⟨(m2.getD l mdefault).nullable || (m2.getD rr mdefault).nullable,
            (m2.getD l mdefault).first_pos ∪ (m2.getD rr mdefault).first_pos,
            (m2.getD l mdefault).last_pos ∪ (m2.getD rr mdefault).last_pos⟩
        else meta
    | some (.Concat l rr) =>
        if l < r ∧ rr < r then
          let m2 := calcMetaF tree fuel rr (calcMetaF tree fuel l meta)
          m2.set r ⟨(m2.getD l mdefault).nullable && (m2.getD rr mdefault).nullable,
            if (m2.getD l mdefault).nullable then
              (m2.getD l mdefault).first_pos ∪ (m2.getD rr mdefault).first_pos
            else (m2.getD l mdefault).first_pos,
            if (m2.getD rr mdefault).nullable then
              (m2.getD rr mdefault).last_pos ∪ (m2.getD l mdefault).last_pos
            else (m2.getD rr mdefault).last_pos⟩
        else meta
    | some (.Star c) =>
        if c < r then
          let m1 := calcMetaF tree fuel c meta
          m1.set r ⟨true, (m1.getD c mdefault).first_pos, (m1.getD c mdefault).last_pos⟩
        else meta
    | some (.Plus c) =>
        if c < r then
          let m1 := calcMetaF tree fuel c meta
          m1.set r ⟨false, (m1.getD c mdefault).first_pos, (m1.getD c mdefault).last_pos⟩
        else meta
    | some (.Question c) =>
        if c < r then
          let m1 := calcMetaF tree fuel c meta
          m1.set r ⟨true, (m1.getD c mdefault).first_pos, (m1.getD c mdefault).last_pos⟩
        else meta
    | none => meta

theorem calcMetaF_fuel {tree : ParseTree} {f1 f2 r : Nat} (h1 : r < f1) (h2 : r < f2)
    (meta : List NodeMeta) : calcMetaF tree f1 r meta = calcMetaF tree f2 r meta := by
  induction f1 generalizing f2 r meta with
  | zero => exact absurd h1 (Nat.not_lt_zero r)
  | succ a ih =>
    cases f2 with
    | zero => exact absurd h2 (Nat.not_lt_zero r)
    | succ b =>
      have ha : r ≤ a := Nat.lt_succ_iff.mp h1
      have hb : r ≤ b := Nat.lt_succ_iff.mp h2
      show calcMetaF tree (a + 1) r meta = calcMetaF tree (b + 1) r meta
      rw [calcMetaF, calcMetaF]
      cases htr : tree[r]? with
      | none => rfl
      | some node =>
        cases node with
        | Character c => rfl
        | Id s => rfl
        | Union l rr =>
          dsimp only
          by_cases h : l < r ∧ rr < r
          · rw [if_pos h, if_pos h,
              ih (Nat.lt_of_lt_of_le h.1 ha) (Nat.lt_of_lt_of_le h.1 hb) meta,
              ih (Nat.lt_of_lt_of_le h.2 ha) (Nat.lt_of_lt_of_le h.2 hb)]
          · rw [if_neg h, if_neg h]
        | Concat l rr =>
          dsimp only
          by_cases h : l < r ∧ rr < r
          · rw [if_pos h, if_pos h,
              ih (Nat.lt_of_lt_of_le h.1 ha) (Nat.lt_of_lt_of_le h.1 hb) meta,
              ih (Nat.lt_of_lt_of_le h.2 ha) (Nat.lt_of_lt_of_le h.2 hb)]
          · rw [if_neg h, if_neg h]
        | Star c =>
          dsimp only
          by_cases h : c < r
          · rw [if_pos h, if_pos h, ih (Nat.lt_of_lt_of_le h ha) (Nat.lt_of_lt_of_le h hb) meta]
          · rw [if_neg h, if_neg h]
        | Plus c =>
          dsimp only
          by_cases h : c < r
          · rw [if_pos h, if_pos h, ih (Nat.lt_of_lt_of_le h ha) (Nat.lt_of_lt_of_le h hb) meta]
          · rw [if_neg h, if_neg h]
        | Question c =>
          dsimp only
          by_cases h : c < r
          · rw [if_pos h, if_pos h, ih (Nat.lt_of_lt_of_le h ha) (Nat.lt_of_lt_of_le h hb) meta]
          · rw [if_neg h, if_neg h]

/-- The recursive walk `calculate_meta` from node `r` (the bound `r + 1`
always suffices because child indices strictly decrease). -/
def calculate_meta (tree : ParseTree) (r : Nat) (meta : List NodeMeta) : List NodeMeta :=
  calcMetaF tree (r + 1) r meta

/-- `ParseTree::get_meta` (`src/regex_ast.rs` lines 50-139): initialise every
slot with default metadata, then run the recursive walk from `root`. -/
def get_meta (tree : ParseTree) (root : Nat) : List NodeMeta :=
  calculate_meta tree root (List.replicate tree.length mdefault)

theorem getD_set_self {l : List NodeMeta} {r : Nat} (h : r < l.length) (v d : NodeMeta) :
    (l.set r v).getD r d = v := by
  simp [List.getD, List.getElem?_set_self (by simpa using h)]

theorem getD_set_ne {l : List NodeMeta} {r p : Nat} (h : p ≠ r) (v d : NodeMeta) :
    (l.set r v).getD p d = l.getD p d := by
  simp [List.getD, List.getElem?_set_ne (fun he => h he.symm)]

theorem calcMetaF_length (tree : ParseTree) (f : Nat) : ∀ (r : Nat) (meta : List NodeMeta),
    (calcMetaF tree f r meta).length = meta.length := by
  induction f with
  | zero => intro r meta; rfl
  | succ a ih =>
    intro r meta
    rw [calcMetaF]
    cases htr : tree[r]? with
    | none => rfl
    | some node =>
      cases node with
      | Character c => simp
      | Id s => simp
      | Union l rr =>
        dsimp only
        by_cases h : l < r ∧ rr < r
        · rw [if_pos h]; simp only [List.length_set]; rw [ih, ih]
        · rw [if_neg h]
      | Concat l rr =>
        dsimp only
        by_cases h : l < r ∧ rr < r
        · rw [if_pos h]; simp only [List.length_set]; rw [ih, ih]
        · rw [if_neg h]
      | Star c =>
        dsimp only
        by_cases h : c < r
        · rw [if_pos h]; simp only [List.length_set]; rw [ih]
        · rw [if_neg h]
      | Plus c =>
        dsimp only
        by_cases h : c < r
        · rw [if_pos h]; simp only [List.length_set]; rw [ih]
        · rw [if_neg h]
      | Question c =>
        dsimp only
        by_cases h : c < r
        · rw [if_pos h]; simp only [List.length_set]; rw [ih]
        · rw [if_neg h]

theorem calculate_meta_length (tree : ParseTree) (r : Nat) (meta : List NodeMeta) :
    (calculate_meta tree r meta).length = meta.length :=
  calcMetaF_length tree (r + 1) r meta

theorem calculate_meta_character {tree : ParseTree} {r : Nat} {c : Char}
    (htr : tree[r]? = some (.Character c)) (meta : List NodeMeta) :
    calculate_meta tree r meta = meta.set r ⟨false, {r}, {r}⟩ := by
  unfold calculate_meta
  rw [calcMetaF, htr]

theorem calculate_meta_id {tree : ParseTree} {r : Nat} {s : String}
    (htr : tree[r]? = some (.Id s)) (meta : List NodeMeta) :
    calculate_meta tree r meta = meta.set r ⟨false, {r}, {r}⟩ := by
  unfold calculate_meta
  rw [calcMetaF, htr]

theorem calculate_meta_union {tree : ParseTree} {r l rr : Nat}
    (htr : tree[r]? = some (.Union l rr)) (h : l < r ∧ rr < r) (meta : List NodeMeta) :
    calculate_meta tree r meta =
      (calculate_meta tree rr (calculate_meta tree l meta)).set r
        ⟨((calculate_meta tree rr (calculate_meta tree l meta)).getD l mdefault).nullable ||
            ((calculate_meta tree rr (calculate_meta tree l meta)).getD rr mdefault).nullable,
         ((calculate_meta tree rr (calculate_meta tree l meta)).getD l mdefault).first_pos ∪
            ((calculate_meta tree rr (calculate_meta tree l meta)).getD rr mdefault).first_pos,
         ((calculate_meta tree rr (calculate_meta tree l meta)).getD l mdefault).last_pos ∪
            ((calculate_meta tree rr (calculate_meta tree l meta)).getD rr mdefault).last_pos⟩ := by
  unfold calculate_meta
  conv_lhs => rw [calcMetaF]
  rw [htr]; dsimp only; rw [if_pos h,
    calcMetaF_fuel h.1 (Nat.lt_succ_self l) meta,
    calcMetaF_fuel h.2 (Nat.lt_succ_self rr)]

theorem calculate_meta_concat {tree : ParseTree} {r l rr : Nat}
    (htr : tree[r]? = some (.Concat l rr)) (h : l < r ∧ rr < r) (meta : List NodeMeta) :
    calculate_meta tree r meta =
      (calculate_meta tree rr (calculate_meta tree l meta)).set r
        ⟨((calculate_meta tree rr (calculate_meta tree l meta)).getD l mdefault).nullable &&
            ((calculate_meta tree rr (calculate_meta tree l meta)).getD rr mdefault).nullable,
         if ((calculate_meta tree rr (calculate_meta tree l meta)).getD l mdefault).nullable then
            ((calculate_meta tree rr (calculate_meta tree l meta)).getD l mdefault).first_pos ∪
              ((calculate_meta tree rr (calculate_meta tree l meta)).getD rr mdefault).first_pos
         else ((calculate_meta tree rr (calculate_meta tree l meta)).getD l mdefault).first_pos,
         if ((calculate_meta tree rr (calculate_meta tree l meta)).getD rr mdefault).nullable then
            ((calculate_meta tree rr (calculate_meta tree l meta)).getD rr mdefault).last_pos ∪
              ((calculate_meta tree rr (calculate_meta tree l meta)).getD l mdefault).last_pos
         else ((calculate_meta tree rr (calculate_meta tree l meta)).getD rr mdefault).last_pos⟩ := by
  unfold calculate_meta
  conv_lhs => rw [calcMetaF]
  rw [htr]; dsimp only; rw [if_pos h,
    calcMetaF_fuel h.1 (Nat.lt_succ_self l) meta,
    calcMetaF_fuel h.2 (Nat.lt_succ_self rr)]

theorem calculate_meta_star {tree : ParseTree} {r c : Nat}
    (htr : tree[r]? = some (.Star c)) (h : c < r) (meta : List NodeMeta) :
    calculate_meta tree r meta =
      (calculate_meta tree c meta).set r
        ⟨true, ((calculate_meta tree c meta).getD c mdefault).first_pos,
         ((calculate_meta tree c meta).getD c mdefault).last_pos⟩ := by
  unfold calculate_meta
  conv_lhs => rw [calcMetaF]
  rw [htr]; dsimp only; rw [if_pos h, calcMetaF_fuel h (Nat.lt_succ_self c) meta]

theorem calculate_meta_plus {tree : ParseTree} {r c : Nat}
    (htr : tree[r]? = some (.Plus c)) (h : c < r) (meta : List NodeMeta) :
    calculate_meta tree r meta =
      (calculate_meta tree c meta).set r
        ⟨false, ((calculate_meta tree c meta).getD c mdefault).first_pos,
         ((calculate_meta tree c meta).getD c mdefault).last_pos⟩ := by
  unfold calculate_meta
  conv_lhs => rw [calcMetaF]
  rw [htr]; dsimp only; rw [if_pos h, calcMetaF_fuel h (Nat.lt_succ_self c) meta]

theorem calculate_meta_question {tree : ParseTree} {r c : Nat}
    (htr : tree[r]? = some (.Question c)) (h : c < r) (meta : List NodeMeta) :
    calculate_meta tree r meta =
      (calculate_meta tree c meta).set r
        ⟨true, ((calculate_meta tree c meta).getD c mdefault).first_pos,
         ((calculate_meta tree c meta).getD c mdefault).last_pos⟩ := by
  unfold calculate_meta
  conv_lhs => rw [calcMetaF]
  rw [htr]; dsimp only; rw [if_pos h, calcMetaF_fuel h (Nat.lt_succ_self c) meta]

theorem reaches_cases {tree : ParseTree} {r p : Nat} (h : Reaches tree r p) :
    p = r ∨ ∃ node c, tree[r]? = some node ∧ c ∈ childrenOf node ∧ Reaches tree c p := by
  cases h with
  | refl => exact Or.inl rfl
  | child hget hc hr => exact Or.inr ⟨_, _, hget, hc, hr⟩

theorem metaAt_character {tree : ParseTree} {r : Nat} {c : Char}
    (htr : tree[r]? = some (.Character c)) : metaAt tree r = ⟨false, {r}, {r}⟩ := by
  conv_lhs => rw [metaAt]
  rw [htr]

theorem metaAt_id {tree : ParseTree} {r : Nat} {s : String}
    (htr : tree[r]? = some (.Id s)) : metaAt tree r = ⟨false, {r}, {r}⟩ := by
  conv_lhs => rw [metaAt]
  rw [htr]

theorem metaAt_union {tree : ParseTree} {r l rr : Nat}
    (htr : tree[r]? = some (.Union l rr)) (h : l < r ∧ rr < r) :
    metaAt tree r =
      ⟨(metaAt tree l).nullable || (metaAt tree rr).nullable,
       (metaAt tree l).first_pos ∪ (metaAt tree rr).first_pos,
       (metaAt tree l).last_pos ∪ (metaAt tree rr).last_pos⟩ := by
  conv_lhs => rw [metaAt]
  rw [htr]; dsimp only; rw [dif_pos h]

theorem metaAt_concat {tree : ParseTree} {r l rr : Nat}
    (htr : tree[r]? = some (.Concat l rr)) (h : l < r ∧ rr < r) :
    metaAt tree r =
      ⟨(metaAt tree l).nullable && (metaAt tree rr).nullable,
       if (metaAt tree l).nullable then (metaAt tree l).first_pos ∪ (metaAt tree rr).first_pos
       else (metaAt tree l).first_pos,
       if (metaAt tree rr).nullable then (metaAt tree rr).last_pos ∪ (metaAt tree l).last_pos
       else (metaAt tree rr).last_pos⟩ := by
  conv_lhs => rw [metaAt]
  rw [htr]; dsimp only; rw [dif_pos h]

theorem metaAt_star {tree : ParseTree} {r c : Nat}
    (htr : tree[r]? = some (.Star c)) (h : c < r) :
    metaAt tree r = ⟨true, (metaAt tree c).first_pos, (metaAt tree c).last_pos⟩ := by
  conv_lhs => rw [metaAt]
  rw [htr]; dsimp only; rw [dif_pos h]

theorem metaAt_plus {tree : ParseTree} {r c : Nat}
    (htr : tree[r]? = some (.Plus c)) (h : c < r) :
    metaAt tree r = ⟨false, (metaAt tree c).first_pos, (metaAt tree c).last_pos⟩ := by
  conv_lhs => rw [metaAt]
  rw [htr]; dsimp only; rw [dif_pos h]

theorem metaAt_question {tree : ParseTree} {r c : Nat}
    (htr : tree[r]? = some (.Question c)) (h : c < r) :
    metaAt tree r = ⟨true, (metaAt tree c).first_pos, (metaAt tree c).last_pos⟩ := by
  conv_lhs => rw [metaAt]
  rw [htr]; dsimp only; rw [dif_pos h]

theorem calculate_meta_spec {tree : ParseTree} (hwf : WFb tree = true) (r : Nat) :
    r < tree.length → ∀ meta : List NodeMeta, meta.length = tree.length →
      (∀ p, Reaches tree r p →
        (calculate_meta tree r meta).getD p mdefault = metaAt tree p) ∧
      (∀ p, (calculate_meta tree r meta).getD p mdefault = meta.getD p mdefault ∨
            (calculate_meta tree r meta).getD p mdefault = metaAt tree p) := by
  induction r using Nat.strong_induction_on with
  | _ r ih =>
    intro hr meta hlen
    cases htr : tree[r]? with
    | none => simp [List.getElem?_eq_getElem hr] at htr
    | some node =>
      cases node with
      | Character c =>
        have hrm : r < meta.length := hlen ▸ hr
        rw [calculate_meta_character htr]
        constructor
        · intro p hp
          rcases reaches_cases hp with hpr | ⟨node, cc, hget, hcc, _⟩
          · subst hpr; rw [getD_set_self hrm, metaAt_character htr]
          · rw [htr] at hget; cases hget; simp [childrenOf] at hcc
        · intro p
          by_cases hpr : p = r
          · subst hpr; rw [getD_set_self hrm, metaAt_character htr]; exact Or.inr rfl
          · rw [getD_set_ne hpr]; exact Or.inl rfl
      | Id sname =>
        have hrm : r < meta.length := hlen ▸ hr
        rw [calculate_meta_id htr]
        constructor
        · intro p hp
          rcases reaches_cases hp with hpr | ⟨node, cc, hget, hcc, _⟩
          · subst hpr; rw [getD_set_self hrm, metaAt_id htr]
          · rw [htr] at hget; cases hget; simp [childrenOf] at hcc
        · intro p
          by_cases hpr : p = r
          · subst hpr; rw [getD_set_self hrm, metaAt_id htr]; exact Or.inr rfl
          · rw [getD_set_ne hpr]; exact Or.inl rfl
      | Union l rr =>
        have hl : l < r := wfb_spec hwf htr (by simp [childrenOf])
        have hrr : rr < r := wfb_spec hwf htr (by simp [childrenOf])
        rw [calculate_meta_union htr ⟨hl, hrr⟩]
        have IH1 := ih l hl (Nat.lt_trans hl hr) meta hlen
        have hlen1 : (calculate_meta tree l meta).length = tree.length := by
          rw [calculate_meta_length]; exact hlen
        have IH2 := ih rr hrr (Nat.lt_trans hrr hr) (calculate_meta tree l meta) hlen1
        set M2 := calculate_meta tree rr (calculate_meta tree l meta) with hM2def
        have hlen2 : M2.length = tree.length := by
          rw [hM2def, calculate_meta_length]; exact hlen1
        have hrm : r < M2.length := hlen2 ▸ hr
        have m2l : M2.getD l mdefault = metaAt tree l := by
          rcases IH2.2 l with h1 | h1
          · rw [h1]; exact IH1.1 l (Reaches.refl l)
          · exact h1
        have m2r : M2.getD rr mdefault = metaAt tree rr := IH2.1 rr (Reaches.refl rr)
        have hval : (⟨(M2.getD l mdefault).nullable || (M2.getD rr mdefault).nullable,
            (M2.getD l mdefault).first_pos ∪ (M2.getD rr mdefault).first_pos,
            (M2.getD l mdefault).last_pos ∪ (M2.getD rr mdefault).last_pos⟩ : NodeMeta) =
            metaAt tree r := by
          rw [m2l, m2r, metaAt_union htr ⟨hl, hrr⟩]
        constructor
        · intro p hp
          rcases reaches_cases hp with hpr | ⟨node, cc, hget, hcc, hreach⟩
          · subst hpr; rw [getD_set_self hrm, hval]
          · rw [htr] at hget; cases hget
            simp [childrenOf] at hcc
            have hple : p < r := by
              rcases hcc with hcc | hcc
              · subst hcc; exact Nat.lt_of_le_of_lt (reaches_le hwf hreach) hl
              · subst hcc; exact Nat.lt_of_le_of_lt (reaches_le hwf hreach) hrr
            rw [getD_set_ne (Nat.ne_of_lt hple)]
            rcases hcc with hcc | hcc
            · subst hcc
              rcases IH2.2 p with h1 | h1
              · rw [h1]; exact IH1.1 p hreach
              · exact h1
            · subst hcc; exact IH2.1 p hreach
        · intro p
          by_cases hpr : p = r
          · subst hpr; rw [getD_set_self hrm, hval]; exact Or.inr rfl
          · rw [getD_set_ne hpr]
            rcases IH2.2 p with h1 | h1
            · rw [h1]; exact IH1.2 p
            · exact Or.inr h1
      | Concat l rr =>
        have hl : l < r := wfb_spec hwf htr (by simp [childrenOf])
        have hrr : rr < r := wfb_spec hwf htr (by simp [childrenOf])
        rw [calculate_meta_concat htr ⟨hl, hrr⟩]
        have IH1 := ih l hl (Nat.lt_trans hl hr) meta hlen
        have hlen1 : (calculate_meta tree l meta).length = tree.length := by
          rw [calculate_meta_length]; exact hlen
        have IH2 := ih rr hrr (Nat.lt_trans hrr hr) (calculate_meta tree l meta) hlen1
        set M2 := calculate_meta tree rr (calculate_meta tree l meta) with hM2def
        have hlen2 : M2.length = tree.length := by
          rw [hM2def, calculate_meta_length]; exact hlen1
        have hrm : r < M2.length := hlen2 ▸ hr
        have m2l : M2.getD l mdefault = metaAt tree l := by
          rcases IH2.2 l with h1 | h1
          · rw [h1]; exact IH1.1 l (Reaches.refl l)
          · exact h1
        have m2r : M2.getD rr mdefault = metaAt tree rr := IH2.1 rr (Reaches.refl rr)
        have hval : (⟨(M2.getD l mdefault).nullable && (M2.getD rr mdefault).nullable,
            if (M2.getD l mdefault).nullable then
              (M2.getD l mdefault).first_pos ∪ (M2.getD rr mdefault).first_pos
            else (M2.getD l mdefault).first_pos,
            if (M2.getD rr mdefault).nullable then
              (M2.getD rr mdefault).last_pos ∪ (M2.getD l mdefault).last_pos
            else (M2.getD rr mdefault).last_pos⟩ : NodeMeta) = metaAt tree r := by
          rw [m2l, m2r, metaAt_concat htr ⟨hl, hrr⟩]
        constructor
        · intro p hp
          rcases reaches_cases hp with hpr | ⟨node, cc, hget, hcc, hreach⟩
          · subst hpr; rw [getD_set_self hrm, hval]
          · rw [htr] at hget; cases hget
            simp [childrenOf] at hcc
            have hple : p < r := by
              rcases hcc with hcc | hcc
              · subst hcc; exact Nat.lt_of_le_of_lt (reaches_le hwf hreach) hl
              · subst hcc; exact Nat.lt_of_le_of_lt (reaches_le hwf hreach) hrr
            rw [getD_set_ne (Nat.ne_of_lt hple)]
            rcases hcc with hcc | hcc
            · subst hcc
              rcases IH2.2 p with h1 | h1
              · rw [h1]; exact IH1.1 p hreach
              · exact h1
            · subst hcc; exact IH2.1 p hreach
        · intro p
          by_cases hpr : p = r
          · subst hpr; rw [getD_set_self hrm, hval]; exact Or.inr rfl
          · rw [getD_set_ne hpr]
            rcases IH2.2 p with h1 | h1
            · rw [h1]; exact IH1.2 p
            · exact Or.inr h1
      | Star c =>
        have hc : c < r := wfb_spec hwf htr (by simp [childrenOf])
        rw [calculate_meta_star htr hc]
        have IH1 := ih c hc (Nat.lt_trans hc hr) meta hlen
        set M1 := calculate_meta tree c meta with hM1def
        have hlen1 : M1.length = tree.length := by
          rw [hM1def, calculate_meta_length]; exact hlen
        have hrm : r < M1.length := hlen1 ▸ hr
        have m1c : M1.getD c mdefault = metaAt tree c := IH1.1 c (Reaches.refl c)
        have hval : (⟨true, (M1.getD c mdefault).first_pos,
            (M1.getD c mdefault).last_pos⟩ : NodeMeta) = metaAt tree r := by
          rw [m1c, metaAt_star htr hc]
        constructor
        · intro p hp
          rcases reaches_cases hp with hpr | ⟨node, cc, hget, hcc, hreach⟩
          · subst hpr; rw [getD_set_self hrm, hval]
          · rw [htr] at hget; cases hget
            simp [childrenOf] at hcc
            subst hcc
            have hple : p < r := Nat.lt_of_le_of_lt (reaches_le hwf hreach) hc
            rw [getD_set_ne (Nat.ne_of_lt hple)]
            exact IH1.1 p hreach
        · intro p
          by_cases hpr : p = r
          · subst hpr; rw [getD_set_self hrm, hval]; exact Or.inr rfl
          · rw [getD_set_ne hpr]; exact IH1.2 p
      | Plus c =>
        have hc : c < r := wfb_spec hwf htr (by simp [childrenOf])
        rw [calculate_meta_plus htr hc]
        have IH1 := ih c hc (Nat.lt_trans hc hr) meta hlen
        set M1 := calculate_meta tree c meta with hM1def
        have hlen1 : M1.length = tree.length := by
          rw [hM1def, calculate_meta_length]; exact hlen
        have hrm : r < M1.length := hlen1 ▸ hr
        have m1c : M1.getD c mdefault = metaAt tree c := IH1.1 c (Reaches.refl c)
        have hval : (⟨false, (M1.getD c mdefault).first_pos,
            (M1.getD c mdefault).last_pos⟩ : NodeMeta) = metaAt tree r := by
          rw [m1c, metaAt_plus htr hc]
        constructor
        · intro p hp
          rcases reaches_cases hp with hpr | ⟨node, cc, hget, hcc, hreach⟩
          · subst hpr; rw [getD_set_self hrm, hval]
          · rw [htr] at hget; cases hget
            simp [childrenOf] at hcc
            subst hcc
            have hple : p < r := Nat.lt_of_le_of_lt (reaches_le hwf hreach) hc
            rw [getD_set_ne (Nat.ne_of_lt hple)]
            exact IH1.1 p hreach
        · intro p
          by_cases hpr : p = r
          · subst hpr; rw [getD_set_self hrm, hval]; exact Or.inr rfl
          · rw [getD_set_ne hpr]; exact IH1.2 p
      | Question c =>
        have hc : c < r := wfb_spec hwf htr (by simp [childrenOf])
        rw [calculate_meta_question htr hc]
        have IH1 := ih c hc (Nat.lt_trans hc hr) meta hlen
        set M1 := calculate_meta tree c meta with hM1def
        have hlen1 : M1.length = tree.length := by
          rw [hM1def, calculate_meta_length]; exact hlen
        have hrm : r < M1.length := hlen1 ▸ hr
        have m1c : M1.getD c mdefault = metaAt tree c := IH1.1 c (Reaches.refl c)
        have hval : (⟨true, (M1.getD c mdefault).first_pos,
            (M1.getD c mdefault).last_pos⟩ : NodeMeta) = metaAt tree r := by
          rw [m1c, metaAt_question htr hc]
        constructor
        · intro p hp
          rcases reaches_cases hp with hpr | ⟨node, cc, hget, hcc, hreach⟩
          · subst hpr; rw [getD_set_self hrm, hval]
          · rw [htr] at hget; cases hget
            simp [childrenOf] at hcc
            subst hcc
            have hple : p < r := Nat.lt_of_le_of_lt (reaches_le hwf hreach) hc
            rw [getD_set_ne (Nat.ne_of_lt hple)]
            exact IH1.1 p hreach
        · intro p
          by_cases hpr : p = r
          · subst hpr; rw [getD_set_self hrm, hval]; exact Or.inr rfl
          · rw [getD_set_ne hpr]; exact IH1.2 p

/-- The metadata recurrences of the spec at node `p`, phrased over the
metadata array `M` that `get_meta` returned. The claim is silent about the
`Id` (class-reference) variant, so that case imposes no constraint. -/
def RecurrencesAt (tree : ParseTree) (M : List NodeMeta) (p : Nat) : Prop :=
  match tree[p]? with
  | some (.Character _) => M.getD p mdefault = ⟨false, {p}, {p}⟩
  | some (.Id _) => True
  | some (.Union l r) =>
      M.getD p mdefault =
        ⟨(M.getD l mdefault).nullable || (M.getD r mdefault).nullable,
         (M.getD l mdefault).first_pos ∪ (M.getD r mdefault).first_pos,
         (M.getD l mdefault).last_pos ∪ (M.getD r mdefault).last_pos⟩
  | some (.Concat l r) =>
      M.getD p mdefault =
        ⟨(M.getD l mdefault).nullable && (M.getD r mdefault).nullable,
         if (M.getD l mdefault).nullable then
           (M.getD l mdefault).first_pos ∪ (M.getD r mdefault).first_pos
         else (M.getD l mdefault).first_pos,
         if (M.getD r mdefault).nullable then
           (M.getD r mdefault).last_pos ∪ (M.getD l mdefault).last_pos
         else (M.getD r mdefault).last_pos⟩
  | some (.Star c) =>
      (M.getD p mdefault).nullable = true ∧
      (M.getD p mdefault).first_pos = (M.getD c mdefault).first_pos ∧
      (M.getD p mdefault).last_pos = (M.getD c mdefault).last_pos
  | some (.Plus c) =>
      (M.getD p mdefault).nullable = false ∧
      (M.getD p mdefault).first_pos = (M.getD c mdefault).first_pos ∧
      (M.getD p mdefault).last_pos = (M.getD c mdefault).last_pos
  | some (.Question c) =>
      (M.getD p mdefault).nullable = true ∧
      (M.getD p mdefault).first_pos = (M.getD c mdefault).first_pos ∧
      (M.getD p mdefault).last_pos = (M.getD c mdefault).last_pos
  | none => True

instance instDecRecurrencesAt (tree : ParseTree) (M : List NodeMeta) (p : Nat) :
    Decidable (RecurrencesAt tree M p) := by
  unfold RecurrencesAt
  cases tree[p]? with
  | none => exact inferInstanceAs (Decidable True)
  | some node =>
    cases node with
    | Character c => exact inferInstanceAs (Decidable (_ = _))
    | Id sname => exact inferInstanceAs (Decidable True)
    | Union l r => exact inferInstanceAs (Decidable (_ = _))
    | Concat l r => exact inferInstanceAs (Decidable (_ = _))
    | Star c => exact inferInstanceAs (Decidable (_ ∧ _ ∧ _))
    | Plus c => exact inferInstanceAs (Decidable (_ ∧ _ ∧ _))
    | Question c => exact inferInstanceAs (Decidable (_ ∧ _ ∧ _))

/-- C1: for every well-formed AST arena and root, `get_meta` computes node
metadata by the standard recurrences at every node of the tree (every node
the walk from the root reaches): a leaf `Character` node at position `p`
has `nullable = false` and `firstpos = lastpos = {p}`; `Union(L,R)` has
`nullable = nL || nR` and unions `firstpos`/`lastpos`; `Concat(L,R)` has
`nullable = nL && nR`, `firstpos = fL ∪ fR` when `L` is nullable and `fL`
otherwise, `lastpos = lL ∪ lR` when `R` is nullable and `lR` otherwise;
`Star` and `Question` are nullable, `Plus` is not, and all three copy the
child's `firstpos` and `lastpos` unchanged. -/
theorem C1_get_meta_recurrences {tree : ParseTree} {root p : Nat}
    (hwf : WFb tree = true) (hroot : root < tree.length)
    (hp : Reaches tree root p) :
    RecurrencesAt tree (get_meta tree root) p := by
  have hlen0 : (List.replicate tree.length mdefault).length = tree.length := by simp
  have H := calculate_meta_spec hwf root hroot (List.replicate tree.length mdefault) hlen0
  have hMp : (get_meta tree root).getD p mdefault = metaAt tree p := H.1 p hp
  unfold RecurrencesAt
  cases htp : tree[p]? with
  | none => trivial
  | some node =>
    cases node with
    | Character c =>
      dsimp only
      rw [hMp, metaAt_character htp]
    | Id sname => trivial
    | Union l r =>
      have hl : l < p := wfb_spec hwf htp (by simp [childrenOf])
      have hr : r < p := wfb_spec hwf htp (by simp [childrenOf])
      dsimp only
      have hMl : (get_meta tree root).getD l mdefault = metaAt tree l :=
        H.1 l (hp.trans (Reaches.child htp (by simp [childrenOf]) (Reaches.refl l)))
      have hMr : (get_meta tree root).getD r mdefault = metaAt tree r :=
        H.1 r (hp.trans (Reaches.child htp (by simp [childrenOf]) (Reaches.refl r)))
      rw [hMp, hMl, hMr, metaAt_union htp ⟨hl, hr⟩]
    | Concat l r =>
      have hl : l < p := wfb_spec hwf htp (by simp [childrenOf])
      have hr : r < p := wfb_spec hwf htp (by simp [childrenOf])
      dsimp only
      have hMl : (get_meta tree root).getD l mdefault = metaAt tree l :=
        H.1 l (hp.trans (Reaches.child htp (by simp [childrenOf]) (Reaches.refl l)))
      have hMr : (get_meta tree root).getD r mdefault = metaAt tree r :=
        H.1 r (hp.trans (Reaches.child htp (by simp [childrenOf]) (Reaches.refl r)))
      rw [hMp, hMl, hMr, metaAt_concat htp ⟨hl, hr⟩]
    | Star c =>
      have hc : c < p := wfb_spec hwf htp (by simp [childrenOf])
      dsimp only
      have hMc : (get_meta tree root).getD c mdefault = metaAt tree c :=
        H.1 c (hp.trans (Reaches.child htp (by simp [childrenOf]) (Reaches.refl c)))
      rw [hMp, hMc, metaAt_star htp hc]
      exact ⟨rfl, rfl, rfl⟩
    | Plus c =>
      have hc : c < p := wfb_spec hwf htp (by simp [childrenOf])
      dsimp only
      have hMc : (get_meta tree root).getD c mdefault = metaAt tree c :=
        H.1 c (hp.trans (Reaches.child htp (by simp [childrenOf]) (Reaches.refl c)))
      rw [hMp, hMc, metaAt_plus htp hc]
      exact ⟨rfl, rfl, rfl⟩
    | Question c =>
      have hc : c < p := wfb_spec hwf htp (by simp [childrenOf])
      dsimp only
      have hMc : (get_meta tree root).getD c mdefault = metaAt tree c :=
        H.1 c (hp.trans (Reaches.child htp (by simp [childrenOf]) (Reaches.refl c)))
      rw [hMp, hMc, metaAt_question htp hc]
      exact ⟨rfl, rfl, rfl⟩

/-- The arena of the augmented regex `(a|b)*abb#` built in the repository's
own `test_parse_tree_meta` test (`src/regex_ast.rs`). -/
def treeAbb : ParseTree :=
  [.Character 'a', .Character 'b', .Union 0 1, .Star 2, .Character 'a',
   .Concat 3 4, .Character 'b', .Concat 5 6, .Character 'b', .Concat 7 8,
   .Character '#', .Concat 9 10]

theorem C1_get_meta_recurrences_witness :
    WFb treeAbb = true ∧ 11 < treeAbb.length ∧
    RecurrencesAt treeAbb (get_meta treeAbb 11) 3 :=
  ⟨by decide, by decide,
    C1_get_meta_recurrences (by decide) (by decide)
      (@Reaches.child treeAbb 11 9 3 (.Concat 9 10) rfl (by decide)
        (@Reaches.child treeAbb 9 7 3 (.Concat 7 8) rfl (by decide)
          (@Reaches.child treeAbb 7 5 3 (.Concat 5 6) rfl (by decide)
            (@Reaches.child treeAbb 5 3 3 (.Concat 3 4) rfl (by decide)
              (Reaches.refl 3)))))⟩

/-- The followpos table (`HashMap<NodeRef, BTreeSet<NodeRef>>`): `none`
models an absent key. -/
abbrev FollowPos := Nat → Option (Finset Nat)

/-- The loop `for nref in ... { follow_pos.entry(*nref).or_insert(BTreeSet::new())
.extend(follow_nodes) }` of `get_follow_pos`: every key in `keys` gets `s`
unioned into its (possibly freshly inserted empty) entry. -/
def fpInsertAll (fp : FollowPos) (keys s : Finset Nat) : FollowPos :=
  fun k => if k ∈ keys then some ((fp k).getD ∅ ∪ s) else fp k

/-- The recursive `helper` of `get_follow_pos` (`src/regex_ast.rs` lines
174-216), with an explicit structural bound `fuel` (child indices strictly
decrease on arenas built by `Arena::add`, so `fuel = r + 1` suffices).
`Concat` unions `firstpos(right)` into the entry of every member of
`lastpos(left)` and descends into both children; `Star` and `Plus` union the
node's own `firstpos` into the entry of every member of the node's own
`lastpos` and descend into the child; `Union` only descends; every other
node — including `Question` — falls into the source's `_ => {}` arm, which
neither contributes nor descends. -/
def followHelperF (tree : ParseTree) (meta : List NodeMeta) :
    Nat → Nat → FollowPos → FollowPos
  | 0, _, fp => fp
  | fuel + 1, r, fp =>
    match tree[r]? with
    | some (.Concat l rr) =>
        if l < r ∧ rr < r then
          let fp1 := fpInsertAll fp (meta.getD l mdefault).last_pos
            (meta.getD rr mdefault).first_pos
          followHelperF tree meta fuel rr (followHelperF tree meta fuel l fp1)
        else fp
    | some (.Star c) =>
        if c < r then
          let fp1 := fpInsertAll fp (meta.getD r mdefault).last_pos
            (meta.getD r mdefault).first_pos
          followHelperF tree meta fuel c fp1
        else fp
    | some (.Plus c) =>
        if c < r then
          let fp1 := fpInsertAll fp (meta.getD r mdefault).last_pos
            (meta.getD r mdefault).first_pos
          followHelperF tree meta fuel c fp1
        else fp
    | some (.Union l rr) =>
        if l < r ∧ rr < r then
          followHelperF tree meta fuel rr (followHelperF tree meta fuel l fp)
        else fp
    | _ => fp

/-- `get_follow_pos` (`src/regex_ast.rs` lines 163-219): requires the root to
be a `Concat` (otherwise the source panics, modelled by `none`), seeds the
table with `(end_node, ∅)` for the root's right child, and runs the helper. -/
def get_follow_pos (tree : ParseTree) (meta : List NodeMeta) (root : Nat) :
    Option FollowPos :=
  match tree[root]? with
  | some (.Concat _ rr) =>
      some (followHelperF tree meta (root + 1) root
        (fun k => if k = rr then some ∅ else none))
  | _ => none

/-- The arena of the augmented regex `(ab)?c` (`token T /(ab)?c/`):
`a b · ? c · # · # ·` with the per-token `#` at 6 and the outer `#` at 8. -/
def treeQc : ParseTree :=
  [.Character 'a', .Character 'b', .Concat 0 1, .Question 2, .Character 'c',
   .Concat 3 4, .Character '#', .Concat 5 6, .Character '#', .Concat 7 8]

/-- C2: the claim fails on the code. For the parsed AST of `token T /(ab)?c/`
(root a `Concat` whose right child is `Character('#')`), the leaf
`Character('a')` at position 0 is a leaf of the tree (reachable from the
root), yet `get_follow_pos` returns a table with no key 0: the recursion
falls into the `_ => {}` arm at the `Question` node and never descends into
its subtree, so the `Concat(a,b)` below it is never processed. (The entry of
leaf 1 shows the helper did run on the rest of the tree.) -/
theorem C2_followpos_missing_leaf :
    treeQc[0]? = some (.Character 'a') ∧
    Reaches treeQc 9 0 ∧
    (get_follow_pos treeQc (get_meta treeQc 9) 9).map (fun fp => fp 0) = some none ∧
    (get_follow_pos treeQc (get_meta treeQc 9) 9).map (fun fp => fp 1) =
      some (some {4}) := by
  refine ⟨rfl, ?_, by decide, by decide⟩
  exact @Reaches.child treeQc 9 7 0 (.Concat 7 8) rfl (by decide)
    (@Reaches.child treeQc 7 5 0 (.Concat 5 6) rfl (by decide)
      (@Reaches.child treeQc 5 3 0 (.Concat 3 4) rfl (by decide)
        (@Reaches.child treeQc 3 2 0 (.Question 2) rfl (by decide)
          (@Reaches.child treeQc 2 0 0 (.Concat 0 1) rfl (by decide)
            (Reaches.refl 0)))))

/-- `ClassSetOperator` (`src/parser.rs`). -/
inductive ClassSetOperator where
  | Include
  | Negate
  deriving DecidableEq

/-- `ClassSetEntry` (`src/parser.rs`): the characters of a class plus its
include/negate operator. -/
structure ClassSetEntry where
  chars : Finset Char
  operator : ClassSetOperator
  deriving DecidableEq

/-- A DFA state table (`DFA.state_table : HashMap<BTreeSet<NodeRef>,
HashMap<char, BTreeSet<NodeRef>>>`), as an association list recording one
possible iteration order of the hash map; `serialize_dfa` iterates it in
list order. Rust's `HashMap` iteration order is seeded per process and is
not a function of the map's contents, so any permutation of the same
entries models a run. A state (`BTreeSet<NodeRef>`, an ordered set) is its
ascending element list. -/
abbrev StateTable := List (List Nat × List (Char × List Nat))

/-- The state-ID assignment of `serialize_dfa` (`for (i, state) in
dfa.state_table.keys().enumerate() { state_ids.insert(state, i + 1) }`). -/
def state_id (keys : List (List Nat)) (s : List Nat) : Option Nat :=
  (keys.findIdx? (fun t => t == s)).map (· + 1)

/-- `get_accepting_tokens` (`src/dfa_serializer.rs` lines 22-46): iterate the
state's members (the `BTreeSet` in ascending order), collecting the token
id of every member that is a key of `end_nodes` (the source inserts them
into a `HashSet`, used only for membership, so the collected list stands in
for it), then keep the `token_order` entries that were collected, in
`token_order` order. -/
def get_accepting_tokens (end_nodes : Nat → Option String) (state : List Nat)
    (token_order : List String) : List String :=
  let accepting_tokens := state.filterMap end_nodes
  token_order.filter (fun t => t ∈ accepting_tokens)

/-- The JSON object `serialize_dfa` builds (`SerializedDFA` in
`src/dfa_serializer.rs`), with the map fields in the iteration orders the
run produced; serde emits the fields in struct order
(accepting, class_sets, entry, states). -/
structure SerializedDFA where
  accepting : List (String × List String)
  class_sets : List (String × (Finset Char × Bool))
  entry : String
  states : List (String × List (Char × String))
  deriving DecidableEq

/-- `serialize_dfa` (`src/dfa_serializer.rs` lines 49-117). `none` models the
source's panics (entry state missing from the state table, or a transition
target missing from it). The source interleaves the constructions (states,
then accepting, then class sets); they are independent, so they are grouped
here with the two fallible ones in a final match. -/
def serialize_dfa (table : StateTable) (entry_state : List Nat)
    (end_nodes : Nat → Option String) (token_order : List String)
    (class_lookup_table : List (String × ClassSetEntry)) : Option SerializedDFA :=
  let keys := table.map Prod.fst
  let accepting := table.filterMap (fun p =>
    let ts := get_accepting_tokens end_nodes p.1 token_order
    if ts.length > 0 then (state_id keys p.1).map (fun sid => (toString sid, ts))
    else none)
  let class_sets := class_lookup_table.map (fun p =>
    ("[" ++ p.1 ++ "]",
     (p.2.chars, match p.2.operator with | .Negate => true | .Include => false)))
  let statesOpt := table.mapM (fun p =>
    (state_id keys p.1).bind (fun sid =>
      (p.2.mapM (fun q => (state_id keys q.2).map (fun tid => (q.1, toString tid)))).map
        (fun trans => (toString sid, trans))))
  match state_id keys entry_state, statesOpt with
  | some eid, some states => some ⟨accepting, class_sets, toString eid, states⟩
  | _, _ => none

theorem filterMap_congr_aux {α β : Type} {f g : α → Option β} :
    ∀ l : List α, (∀ a ∈ l, f a = g a) → l.filterMap f = l.filterMap g := by
  intro l
  induction l with
  | nil => intro _; rfl
  | cons a l ih =>
    intro h
    rw [List.filterMap_cons, List.filterMap_cons, h a (List.mem_cons_self a l),
      ih (fun b hb => h b (List.mem_cons_of_mem a hb))]

theorem get_accepting_tokens_eq (end_nodes : Nat → Option String) (state : List Nat)
    (token_order : List String) :
    get_accepting_tokens end_nodes state token_order =
      token_order.filter (fun t => decide (∃ n ∈ state, end_nodes n = some t)) := by
  unfold get_accepting_tokens
  apply List.filter_congr
  intro t _
  simp only [decide_eq_decide]
  exact List.mem_filterMap

theorem get_accepting_tokens_ne_nil {end_nodes : Nat → Option String}
    {token_order : List String}
    (hcover : ∀ n t, end_nodes n = some t → t ∈ token_order) (state : List Nat) :
    get_accepting_tokens end_nodes state token_order ≠ [] ↔
      ∃ n ∈ state, (end_nodes n).isSome := by
  rw [get_accepting_tokens_eq]
  constructor
  · intro h
    by_contra hno
    apply h
    rw [List.filter_eq_nil_iff]
    intro t _ hdec
    obtain ⟨n, hn, he⟩ := of_decide_eq_true hdec
    exact hno ⟨n, hn, by rw [he]; rfl⟩
  · rintro ⟨n, hn, hsome⟩ hnil
    obtain ⟨t, ht⟩ := Option.isSome_iff_exists.mp hsome
    have htin : t ∈ token_order := hcover n t ht
    have hmem : t ∈ token_order.filter
        (fun t => decide (∃ n ∈ state, end_nodes n = some t)) :=
      List.mem_filter.mpr ⟨htin, decide_eq_true ⟨n, hn, ht⟩⟩
    rw [hnil] at hmem
    exact absurd hmem (List.not_mem_nil t)

/-- C4: in the serialized DFA, a state appears in the accepting map iff it
contains at least one end-marker leaf (a key of the accepting/end-nodes
map), and its label list is exactly the token names accepted by its
members, ordered by the token-order list. The hypothesis `hcover` records
that every accepting token id occurs in the token-order list, which the
parser guarantees (it pushes every token id it records and appends `!`). -/
theorem C4_accepting_iff {table : StateTable} {entry_state : List Nat}
    {end_nodes : Nat → Option String} {token_order : List String}
    {class_lookup_table : List (String × ClassSetEntry)} {out : SerializedDFA}
    (hout : serialize_dfa table entry_state end_nodes token_order class_lookup_table
      = some out)
    (hcover : ∀ n t, end_nodes n = some t → t ∈ token_order) :
    out.accepting = table.filterMap (fun p =>
      if (token_order.filter (fun t => decide (∃ n ∈ p.1, end_nodes n = some t))).length
          > 0 then
        (state_id (table.map Prod.fst) p.1).map (fun sid =>
          (toString sid,
           token_order.filter (fun t => decide (∃ n ∈ p.1, end_nodes n = some t))))
      else none) ∧
    ∀ p ∈ table,
      (token_order.filter (fun t => decide (∃ n ∈ p.1, end_nodes n = some t)) ≠ [] ↔
        ∃ n ∈ p.1, (end_nodes n).isSome) := by
  constructor
  · unfold serialize_dfa at hout
    dsimp only at hout
    split at hout
    · cases hout
      dsimp only
      apply filterMap_congr_aux
      intro p _
      rw [get_accepting_tokens_eq]
    · exact absurd hout (by simp)
  · intro p _
    rw [← get_accepting_tokens_eq]
    exact get_accepting_tokens_ne_nil hcover p.1

/-- The DFA state table of `token A /a/` (leaf `a` at position 0, its `#`
end marker at position 1): entry state `{0}` steps to `{1}` on `a`, and
`{1}` is accepting. `tableA` and `tableARev` are the two enumeration orders
of this two-entry hash map. -/
def tableA : StateTable := [([0], [('a', [1])]), ([1], [])]

def tableARev : StateTable := [([1], []), ([0], [('a', [1])])]

def endNodesA : Nat → Option String := fun n => if n = 1 then some "A" else none

def tokenOrderA : List String := ["A", "!"]

theorem endNodesA_cover : ∀ n t, endNodesA n = some t → t ∈ tokenOrderA := by
  intro n t h
  unfold endNodesA at h
  by_cases hn : n = 1
  · rw [if_pos hn] at h
    cases h
    exact List.mem_cons_self _ _
  · rw [if_neg hn] at h
    cases h

theorem C4_accepting_iff_witness :
    ∃ out, serialize_dfa tableA [0] endNodesA tokenOrderA [] = some out ∧
      out.accepting = tableA.filterMap (fun p =>
        if (tokenOrderA.filter
            (fun t => decide (∃ n ∈ p.1, endNodesA n = some t))).length > 0 then
          (state_id (tableA.map Prod.fst) p.1).map (fun sid =>
            (toString sid,
             tokenOrderA.filter (fun t => decide (∃ n ∈ p.1, endNodesA n = some t))))
        else none) := by
  have h : serialize_dfa tableA [0] endNodesA tokenOrderA [] =
      some ⟨[("2", ["A"])], [], "1", [("1", [('a', "2")]), ("2", [])]⟩ := by decide
  exact ⟨_, h, (C4_accepting_iff h endNodesA_cover).1⟩

/-- C3: the claim fails on the code as a determinism guarantee.
`serialize_dfa` assigns state IDs by enumerating the keys of a Rust
`HashMap` (`dfa.state_table.keys().enumerate()`), and the serialized
`states`/`accepting` objects are themselves `HashMap`s, so the emitted JSON
depends on the hash maps' per-process-seeded iteration order, which is not
a function of the input. Both `tableA` and `tableARev` enumerate the same
two-entry state table (they are permutations of each other), yet the
serialized outputs differ — already in the `entry` state ID. -/
theorem C3_serialize_order_dependent :
    tableA.Perm tableARev ∧
    serialize_dfa tableA [0] endNodesA tokenOrderA [] ≠
      serialize_dfa tableARev [0] endNodesA tokenOrderA [] := by
  constructor
  · decide
  · decide

/-- The 128-character ASCII universe
(`(0u8..=127).map(|b| b as char).collect()` in `get_disjoint_alphabet`). -/
def asciiChars : Finset Char := (Finset.range 128).image Char.ofNat

/-- The per-leaf step of `get_disjoint_alphabet` (`src/parser.rs` lines
474-503): insert the leaf into the entry of every character it covers
(a `Character(c)` leaf covers `{c}`; an `Id` leaf covers its class's chars
for `Include` and `asciiChars \ chars` for `Negate`); `none` models the
source's panics (class name missing from the lookup table, non-leaf node). -/
def alphabetStep (tree : ParseTree) (class_lookup_table : String → Option ClassSetEntry)
    (alphabet : Char → Finset Nat) (node_ref : Nat) : Option (Char → Finset Nat) :=
  match tree[node_ref]? with
  | some (ASTNode.Character c) =>
      some (fun ch => if ch = c then insert node_ref (alphabet ch) else alphabet ch)
  | some (ASTNode.Id id) =>
      match class_lookup_table id with
      | none => none
      | some class_set =>
          let class_chars := match class_set.operator with
            | ClassSetOperator.Include => class_set.chars
            | ClassSetOperator.Negate => asciiChars \ class_set.chars
          some (fun ch =>
            if ch ∈ class_chars then insert node_ref (alphabet ch) else alphabet ch)
  | _ => none

/-- `get_disjoint_alphabet` (`src/parser.rs` lines 467-505): fold the step
over the leaf list, starting from the empty map (`Char → Finset Nat` models
`HashMap<char, HashSet<NodeRef>>`, the empty set standing for an absent
key). -/
def get_disjoint_alphabet (terminal_nodes : List Nat) (tree : ParseTree)
    (class_lookup_table : String → Option ClassSetEntry) :
    Option (Char → Finset Nat) :=
  terminal_nodes.foldlM (alphabetStep tree class_lookup_table) (fun _ => (∅ : Finset Nat))

/-- Leaf `n` covers character `ch`: `Character(c)` exactly `{c}`, an
`Include` class exactly its chars, a `Negate` class exactly
`ASCII(0..=127) \ chars`. -/
def SelectsChar (tree : ParseTree) (class_lookup_table : String → Option ClassSetEntry)
    (n : Nat) (ch : Char) : Prop :=
  match tree[n]? with
  | some (ASTNode.Character c) => ch = c
  | some (ASTNode.Id id) =>
      match class_lookup_table id with
      | some cs =>
          match cs.operator with
          | ClassSetOperator.Include => ch ∈ cs.chars
          | ClassSetOperator.Negate => ch ∈ asciiChars \ cs.chars
      | none => False
  | _ => False

/-- `n` is a leaf the alphabet fold can process: a `Character`, or an `Id`
whose class name is defined. -/
def leafOkB (tree : ParseTree) (class_lookup_table : String → Option ClassSetEntry)
    (n : Nat) : Bool :=
  match tree[n]? with
  | some (ASTNode.Character _) => true
  | some (ASTNode.Id id) => (class_lookup_table id).isSome
  | _ => false

theorem alphabetStep_spec {tree : ParseTree} {clt : String → Option ClassSetEntry}
    (acc : Char → Finset Nat) {a : Nat} (hok : leafOkB tree clt a = true) :
    ∃ acc1, alphabetStep tree clt acc a = some acc1 ∧
      ∀ ch n, n ∈ acc1 ch ↔ n ∈ acc ch ∨ (n = a ∧ SelectsChar tree clt a ch) := by
  unfold leafOkB at hok
  unfold alphabetStep SelectsChar
  cases hta : tree[a]? with
  | none => rw [hta] at hok; exact absurd hok (by simp)
  | some node =>
    rw [hta] at hok
    cases node with
    | Character c =>
      refine ⟨_, rfl, fun ch n => ?_⟩
      dsimp only
      by_cases hch : ch = c
      · rw [if_pos hch]
        simp only [Finset.mem_insert, hch]
        tauto
      · rw [if_neg hch]
        simp [hch]
    | Id id =>
      have hok1 : (clt id).isSome = true := hok
      dsimp only
      cases hcid : clt id with
      | none => rw [hcid] at hok1; exact absurd hok1 (by simp)
      | some cs =>
        dsimp only
        cases hop : cs.operator with
        | Include =>
          refine ⟨_, rfl, fun ch n => ?_⟩
          dsimp only
          by_cases hch : ch ∈ cs.chars
          · rw [if_pos hch]
            simp only [Finset.mem_insert, hch]
            tauto
          · rw [if_neg hch]
            simp [hch]
        | Negate =>
          refine ⟨_, rfl, fun ch n => ?_⟩
          dsimp only
          by_cases hch : ch ∈ asciiChars \ cs.chars
          · rw [if_pos hch]
            simp only [Finset.mem_insert, hch]
            tauto
          · rw [if_neg hch]
            simp [hch]
    | Star c => exact absurd hok (by simp)
    | Plus c => exact absurd hok (by simp)
    | Question c => exact absurd hok (by simp)
    | Concat c d => exact absurd hok (by simp)
    | Union c d => exact absurd hok (by simp)

theorem get_disjoint_alphabet_aux (tree : ParseTree)
    (clt : String → Option ClassSetEntry) :
    ∀ (nodes : List Nat) (acc : Char → Finset Nat),
      nodes.all (leafOkB tree clt) = true →
      ∃ m, nodes.foldlM (alphabetStep tree clt) acc = some m ∧
        ∀ ch n, n ∈ m ch ↔ n ∈ acc ch ∨ (n ∈ nodes ∧ SelectsChar tree clt n ch) := by
  intro nodes
  induction nodes with
  | nil =>
    intro acc _
    exact ⟨acc, rfl, fun ch n => by simp⟩
  | cons a l ih =>
    intro acc hok
    rw [List.all_cons, Bool.and_eq_true] at hok
    obtain ⟨acc1, hacc1, hmem1⟩ := alphabetStep_spec acc hok.1
    obtain ⟨m, hm, hmem⟩ := ih acc1 hok.2
    refine ⟨m, ?_, ?_⟩
    · rw [List.foldlM_cons, hacc1]
      exact hm
    · intro ch n
      rw [hmem ch n]
      constructor
      · rintro (h1 | h2)
        · rcases (hmem1 ch n).mp h1 with h3 | ⟨h4, h5⟩
          · exact Or.inl h3
          · exact Or.inr ⟨h4 ▸ List.mem_cons_self a l, h4 ▸ h5⟩
        · exact Or.inr ⟨List.mem_cons_of_mem a h2.1, h2.2⟩
      · rintro (h1 | ⟨h2, h3⟩)
        · exact Or.inl ((hmem1 ch n).mpr (Or.inl h1))
        · rcases List.mem_cons.mp h2 with h4 | h4
          · exact Or.inl ((hmem1 ch n).mpr (Or.inr ⟨h4, h4 ▸ h3⟩))
          · exact Or.inr ⟨h4, h3⟩

/-- C6: for every leaf list, AST and class table in which every leaf is a
`Character` or an `Id` with a defined class name, `get_disjoint_alphabet`
succeeds and maps each character `c` to exactly the set of listed leaves
that select `c`: a `Character(c)` leaf selects `{c}`, an `Include` class
leaf selects the class's chars, a `Negate` class leaf with contents `S`
selects `ASCII(0..=127) \ S`. -/
theorem C6_disjoint_alphabet {terminal_nodes : List Nat} {tree : ParseTree}
    {clt : String → Option ClassSetEntry}
    (hleaf : terminal_nodes.all (leafOkB tree clt) = true) :
    ∃ m, get_disjoint_alphabet terminal_nodes tree clt = some m ∧
      ∀ ch n, n ∈ m ch ↔ n ∈ terminal_nodes ∧ SelectsChar tree clt n ch := by
  obtain ⟨m, hm, hmem⟩ :=
    get_disjoint_alphabet_aux tree clt terminal_nodes (fun _ => ∅) hleaf
  refine ⟨m, hm, fun ch n => ?_⟩
  rw [hmem ch n]
  simp

/-- The leaf list, arena and class table of the repository's own
`test_disjoint_alphabet` test (`src/parser.rs`). -/
def treeDisjoint : ParseTree := [.Id "regex1", .Id "regex2", .Character 'a']

def cltDisjoint : String → Option ClassSetEntry := fun id =>
  if id = "regex1" then some ⟨{'a', 'b', 'c', 'd'}, .Include⟩
  else if id = "regex2" then some ⟨{'b'}, .Negate⟩
  else none

theorem C6_disjoint_alphabet_witness :
    ∃ m, get_disjoint_alphabet [0, 1, 2] treeDisjoint cltDisjoint = some m ∧
      ∀ ch n, n ∈ m ch ↔ n ∈ [0, 1, 2] ∧ SelectsChar treeDisjoint cltDisjoint n ch :=
  C6_disjoint_alphabet (by decide)

/-- Token kinds (`Token` in `src/lexer.rs`). -/
inductive Token where
  | Class
  | Token
  | Ignore
  | BracketOpen
  | BracketOpenNegate
  | BracketClose
  | DashBracketClose
  | ParenOpen
  | ParenClose
  | Pipe
  | Dash
  | Star
  | Plus
  | Question
  | ForwardSlash
  | Characters
  | CharacterRange
  | EOI
  deriving DecidableEq

/-- `TokenEntry` (`src/lexer.rs`): token plus lexeme and 0-based
coordinates. -/
structure TokenEntry where
  token : Token
  lexeme : String
  line : Nat
  col : Nat
  deriving DecidableEq

/-- Lexer state-machine states (`State` in `src/lexer.rs`). -/
inductive State where
  | Initial
  | Characters
  | CharacterRange
  | Comment
  | BracketOpen
  | Dash
  | ForwardSlash
  | Escape
  deriving DecidableEq

/-- `EOI_COL` (`src/lexer.rs` line 52). -/
def EOI_COL : Nat := 999999

/-- `EOI_LINE` (`src/lexer.rs` line 53). -/
def EOI_LINE : Nat := 999999

/-- `LexerMode` (`src/lexer.rs`). -/
inductive LexerMode where
  | Default
  | Regex
  deriving DecidableEq

/-- `Lexer` (`src/lexer.rs`): machine state, input characters, 0-based
line/column counters, position, and the parser-controlled mode. -/
structure Lexer where
  state : State
  input : List Char
  current_line : Nat
  current_col : Nat
  pos : Nat
  mode : LexerMode
  deriving DecidableEq

/-- `Lexer::from_string`. -/
def Lexer.from_string (input : String) : Lexer :=
  ⟨State.Initial, input.data, 0, 0, 0, LexerMode.Default⟩

/-- `evaluate_escape_characters` (`src/lexer.rs` lines 91-100): the escape
dialect, including the `\v → 0x08` quirk; any other `\X` drops the
backslash. -/
def evaluate_escape_characters : List Char → List Char
  | ['\\', 'n'] => ['\n']
  | ['\\', 't'] => ['\t']
  | ['\\', 'f'] => ['\x0C']
  | ['\\', 'v'] => ['\x08']
  | ['\\', 'r'] => ['\r']
  | other => other.drop 1

/-- One arm of the transition `match` in `get_token` (`src/lexer.rs` lines
140-311): the successor state, the token to return, and whether the arm
called `rewind` (which steps `pos` and `current_col` back one and pops the
lexeme) or cleared the lexeme. -/
structure TransitionData where
  next_state : Option State
  return_token : Option Token
  rewound : Bool
  cleared : Bool

/-- The transition `match` of `get_token`, transcribed arm by arm from
`src/lexer.rs` lines 140-311. `c` is the current character, `lookahead` the
next one, `lexeme1` the lexeme including `c`. (`c.is_alphanumeric()` is
Unicode-alphanumeric in Rust; `Char.isAlphanum` matches it on the ASCII
inputs the generator accepts.) -/
def transitionOf (st : State) (mode : LexerMode) (c : Char) (lookahead : Option Char)
    (lexeme1 : List Char) : TransitionData :=
  match st with
  | State.Initial =>
    match c with
    | ' ' =>
        if mode = LexerMode.Regex then ⟨none, some Token.Characters, false, false⟩
        else ⟨none, none, false, true⟩
    | '\n' | '\r' => ⟨none, none, false, false⟩
    | '-' => ⟨some State.Dash, none, false, false⟩
    | '/' => ⟨some State.ForwardSlash, none, false, false⟩
    | '[' => ⟨some State.BracketOpen, none, false, false⟩
    | ']' => ⟨none, some Token.BracketClose, false, false⟩
    | '(' => ⟨none, some Token.ParenOpen, false, false⟩
    | ')' => ⟨none, some Token.ParenClose, false, false⟩
    | '\\' => ⟨some State.Escape, none, false, false⟩
    | '*' => ⟨none, some Token.Star, false, false⟩
    | '+' => ⟨none, some Token.Plus, false, false⟩
    | '?' => ⟨none, some Token.Question, false, false⟩
    | '|' => ⟨none, some Token.Pipe, false, false⟩
    | _ =>
        if mode = LexerMode.Regex then ⟨none, some Token.Characters, false, false⟩
        else ⟨some State.Characters, none, false, false⟩
  | State.Characters =>
    if lookahead = some '-' then
      ⟨some State.Initial, some Token.Characters, true, false⟩
    else if c.isAlphanum ∨ c = '_' then
      ⟨none, none, false, false⟩
    else if c = '-' then
      ⟨some State.CharacterRange, none, false, false⟩
    else
      let kw :=
        if String.mk lexeme1.dropLast = "class" then Token.Class
        else if String.mk lexeme1.dropLast = "ignore" then Token.Ignore
        else if String.mk lexeme1.dropLast = "token" then Token.Token
        else Token.Characters
      ⟨some State.Initial, some kw, true, false⟩
  | State.BracketOpen =>
    match c with
    | '^' => ⟨some State.Initial, some Token.BracketOpenNegate, false, false⟩
    | _ => ⟨some State.Initial, some Token.BracketOpen, true, false⟩
  | State.Escape => ⟨some State.Initial, some Token.Characters, false, false⟩
  | State.ForwardSlash =>
    match c with
    | '/' => ⟨some State.Comment, none, false, false⟩
    | _ => ⟨some State.Initial, some Token.ForwardSlash, true, false⟩
  | State.Comment =>
    match c with
    | '\n' => ⟨some State.Initial, none, false, true⟩
    | _ => ⟨none, none, false, false⟩
  | State.Dash =>
    match c with
    | ']' => ⟨some State.Initial, some Token.DashBracketClose, false, false⟩
    | _ => ⟨some State.Initial, some Token.Dash, true, false⟩
  | State.CharacterRange => ⟨some State.Initial, some Token.CharacterRange, false, false⟩

/-- The end-of-input tail of `get_token` (`src/lexer.rs` lines 366-382): in
`ForwardSlash` state, emit the pending `/` (and move to `Dash` so the next
call yields `EOI`); otherwise emit `EOI` with sentinel coordinates. -/
def eoi_step (lx : Lexer) : TokenEntry × Lexer :=
  match lx.state with
  | State.ForwardSlash =>
      (⟨Token.ForwardSlash, "/", lx.current_line, lx.current_col - 1⟩,
       {lx with state := State.Dash})
  | _ => (⟨Token.EOI, "", EOI_LINE, EOI_COL⟩, lx)

/-- The `while self.pos < self.input.len()` loop of `get_token`
(`src/lexer.rs` lines 130-364). Iterations that do not return a token never
rewind and advance `pos` by one, so the entry fuel `input.length - pos`
runs out exactly when the loop condition fails. -/
def get_token_loop : Nat → Lexer → List Char → TokenEntry × Lexer
  | 0, lx, _ => eoi_step lx
  | fuel + 1, lx, lexeme =>
    if h : lx.pos < lx.input.length then
      let c := lx.input.get ⟨lx.pos, h⟩
      let lookahead := lx.input[lx.pos + 1]?
      let lexeme1 := lexeme ++ [c]
      let t := transitionOf lx.state lx.mode c lookahead lexeme1
      let lx1 : Lexer :=
        if t.rewound then {lx with pos := lx.pos - 1, current_col := lx.current_col - 1}
        else lx
      let lexeme2 := if t.rewound then lexeme1.dropLast else if t.cleared then [] else lexeme1
      let lx2 : Lexer :=
        match t.next_state with
        | some ns => {lx1 with state := ns}
        | none => lx1
      let lx3 : Lexer :=
        if lx2.input[lx2.pos]? = some '\n' then
          {lx2 with current_line := lx2.current_line + 1, current_col := 0}
        else {lx2 with current_col := lx2.current_col + 1}
      let lexeme3 := if lx2.input[lx2.pos]? = some '\n' then [] else lexeme2
      let lx4 : Lexer := {lx3 with pos := lx3.pos + 1}
      match t.return_token with
      | some tok =>
          (if tok = Token.Characters ∧ lexeme2.head? = some '\\' then
            let escaped := evaluate_escape_characters lexeme2
            let token_length :=
              if escaped ≠ lexeme2 then lexeme2.length - 1 else lexeme2.length
            ⟨tok, String.mk escaped, lx2.current_line, lx2.current_col - token_length⟩
          else
            ⟨tok, String.mk lexeme2, lx2.current_line,
              lx2.current_col - (lexeme2.length - 1)⟩, lx4)
      | none => get_token_loop fuel lx4 lexeme3
    else eoi_step lx

/-- `Lexer::get_token` (`src/lexer.rs` lines 116-383). -/
def get_token (lx : Lexer) : TokenEntry × Lexer :=
  get_token_loop (lx.input.length - lx.pos) lx []

/-- `Lexer::peek_token` (`src/lexer.rs` lines 385-392): run `get_token`,
then restore `pos` and `state` — and only those two fields. -/
def peek_token (lx : Lexer) : TokenEntry × Lexer :=
  let initial_pos := lx.pos
  let initial_state := lx.state
  let (t, lx1) := get_token lx
  (t, {lx1 with pos := initial_pos, state := initial_state})

/-- C10: when `get_token` is called with the input exhausted (`pos` at or
past the end), the loop body never runs: in the `ForwardSlash` machine
state it returns a `ForwardSlash` token with lexeme `"/"` (moving the
machine to `Dash`, so only the following call returns `EOI`); in every
other state — in particular `Characters`, discarding any accumulated
identifier — it returns an `EOI` token with empty lexeme and sentinel
coordinates `line = col = 999999`, leaving the lexer unchanged. -/
theorem C10_get_token_at_eoi (lx : Lexer) (h : lx.input.length ≤ lx.pos) :
    (lx.state = State.ForwardSlash →
      (get_token lx).1.token = Token.ForwardSlash ∧
      (get_token lx).1.lexeme = "/" ∧
      (get_token lx).2 = {lx with state := State.Dash} ∧
      (get_token (get_token lx).2).1 = ⟨Token.EOI, "", 999999, 999999⟩) ∧
    (lx.state ≠ State.ForwardSlash →
      (get_token lx).1 = ⟨Token.EOI, "", 999999, 999999⟩ ∧ (get_token lx).2 = lx) := by
  have hfuel : lx.input.length - lx.pos = 0 := Nat.sub_eq_zero_of_le h
  have hbase : get_token lx = get_token_loop 0 lx [] := by
    unfold get_token
    rw [hfuel]
  constructor
  · intro hfs
    have h3 : (get_token lx).2 = {lx with state := State.Dash} := by
      rw [hbase]
      unfold get_token_loop eoi_step
      rw [hfs]
    have h4 : (get_token ({lx with state := State.Dash} : Lexer)).1
        = ⟨Token.EOI, "", 999999, 999999⟩ := by
      show (get_token_loop (lx.input.length - lx.pos)
        ⟨State.Dash, lx.input, lx.current_line, lx.current_col, lx.pos, lx.mode⟩ []).1 = _
      rw [hfuel]
      unfold get_token_loop eoi_step
      rfl
    refine ⟨?_, ?_, h3, ?_⟩
    · rw [hbase]
      unfold get_token_loop eoi_step
      rw [hfs]
    · rw [hbase]
      unfold get_token_loop eoi_step
      rw [hfs]
    · rw [h3]
      exact h4
  · intro hfs
    rw [hbase]
    unfold get_token_loop eoi_step
    cases hst : lx.state with
    | ForwardSlash => exact absurd hst hfs
    | Initial => exact ⟨rfl, rfl⟩
    | Characters => exact ⟨rfl, rfl⟩
    | CharacterRange => exact ⟨rfl, rfl⟩
    | Comment => exact ⟨rfl, rfl⟩
    | BracketOpen => exact ⟨rfl, rfl⟩
    | Dash => exact ⟨rfl, rfl⟩
    | Escape => exact ⟨rfl, rfl⟩

theorem C10_get_token_at_eoi_witness :
    ((get_token ⟨State.ForwardSlash, ['/'], 0, 1, 1, LexerMode.Default⟩).1.token
        = Token.ForwardSlash ∧
      (get_token ⟨State.ForwardSlash, ['/'], 0, 1, 1, LexerMode.Default⟩).1.lexeme = "/") ∧
    (get_token ⟨State.Characters, ['a', 'b'], 0, 2, 2, LexerMode.Default⟩).1
      = ⟨Token.EOI, "", 999999, 999999⟩ ∧
    (get_token (Lexer.from_string "ab")).1 = ⟨Token.EOI, "", 999999, 999999⟩ := by
  have h1 := (C10_get_token_at_eoi ⟨State.ForwardSlash, ['/'], 0, 1, 1, LexerMode.Default⟩
    (by decide)).1 rfl
  have h2 := (C10_get_token_at_eoi ⟨State.Characters, ['a', 'b'], 0, 2, 2, LexerMode.Default⟩
    (by decide)).2 (by decide)
  exact ⟨⟨h1.1, h1.2.1⟩, h2.1, by decide⟩

set_option maxHeartbeats 2000000 in
theorem get_token_loop_coords :
    ∀ (fuel : Nat) (st : State) (input : List Char) (mode : LexerMode) (pos : Nat)
      (lexeme : List Char) (l1 c1 l2 c2 : Nat),
      (get_token_loop fuel ⟨st, input, l1, c1, pos, mode⟩ lexeme).1.token =
        (get_token_loop fuel ⟨st, input, l2, c2, pos, mode⟩ lexeme).1.token ∧
      (get_token_loop fuel ⟨st, input, l1, c1, pos, mode⟩ lexeme).1.lexeme =
        (get_token_loop fuel ⟨st, input, l2, c2, pos, mode⟩ lexeme).1.lexeme ∧
      (get_token_loop fuel ⟨st, input, l1, c1, pos, mode⟩ lexeme).2.state =
        (get_token_loop fuel ⟨st, input, l2, c2, pos, mode⟩ lexeme).2.state ∧
      (get_token_loop fuel ⟨st, input, l1, c1, pos, mode⟩ lexeme).2.pos =
        (get_token_loop fuel ⟨st, input, l2, c2, pos, mode⟩ lexeme).2.pos := by
  intro fuel
  induction fuel with
  | zero =>
    intro st input mode pos lexeme l1 c1 l2 c2
    unfold get_token_loop eoi_step
    cases st <;> exact ⟨rfl, rfl, rfl, rfl⟩
  | succ a ih =>
    intro st input mode pos lexeme l1 c1 l2 c2
    unfold get_token_loop
    by_cases h : pos < input.length
    · rw [dif_pos h, dif_pos h]
      dsimp only
      cases htr : transitionOf st mode (input.get ⟨pos, h⟩) input[pos + 1]?
          (lexeme ++ [input.get ⟨pos, h⟩]) with
      | mk ns rtok rew clr =>
        cases rew <;> cases clr <;> cases ns <;> cases rtok <;>
          first
            | exact ⟨rfl, rfl, rfl, rfl⟩
            | exact ih _ _ _ _ _ _ _ _ _
            | ((repeat' split) <;>
                first
                  | contradiction
                  | exact ⟨rfl, rfl, rfl, rfl⟩
                  | exact ih _ _ _ _ _ _ _ _ _)
    · rw [dif_neg h, dif_neg h]
      unfold eoi_step
      cases st <;> exact ⟨rfl, rfl, rfl, rfl⟩

theorem get_token_loop_mode_input :
    ∀ (fuel : Nat) (lx : Lexer) (lexeme : List Char),
      (get_token_loop fuel lx lexeme).2.mode = lx.mode ∧
      (get_token_loop fuel lx lexeme).2.input = lx.input := by
  intro fuel
  induction fuel with
  | zero =>
    intro lx lexeme
    unfold get_token_loop eoi_step
    split <;> exact ⟨rfl, rfl⟩
  | succ a ih =>
    intro lx lexeme
    unfold get_token_loop
    split
    · dsimp only
      repeat' split
      all_goals first
        | exact ⟨rfl, rfl⟩
        | exact ⟨(ih _ _).1, (ih _ _).2⟩
    · unfold eoi_step
      split <;> exact ⟨rfl, rfl⟩

/-- C8: the claim fails on the code. `peek_token` snapshots and restores
only `(pos, state)`; the `current_line`/`current_col` counters keep the
values the inner `get_token` left behind, so the lexer is not restored to
an observationally equivalent state and a following `get_token` can report
different coordinates. On input `"a b"`, `get_token` alone reports the
`Characters "a"` token at column 0, but after a `peek_token` the same call
reports it at column 1. -/
theorem C8_peek_token_counterexample :
    (get_token (peek_token (Lexer.from_string "a b")).2).1 ≠
      (get_token (Lexer.from_string "a b")).1 ∧
    (get_token (Lexer.from_string "a b")).1.col = 0 ∧
    (get_token (peek_token (Lexer.from_string "a b")).2).1.col = 1 ∧
    (peek_token (Lexer.from_string "a b")).2 ≠ Lexer.from_string "a b" := by decide

/-- C8 (amended): `peek_token` returns exactly the `TokenEntry` the
enclosed `get_token` produced, and restores `pos`, machine `state` (mode
and input are never written by `get_token`); a `get_token` after a
`peek_token` returns the same token kind and the same lexeme as `get_token`
alone would have — but the line/column counters are not restored, so the
reported coordinates may differ (see the counterexample). -/
theorem C8_peek_token_partial_restore (lx : Lexer) :
    (peek_token lx).1 = (get_token lx).1 ∧
    (peek_token lx).2.pos = lx.pos ∧
    (peek_token lx).2.state = lx.state ∧
    (peek_token lx).2.mode = lx.mode ∧
    (peek_token lx).2.input = lx.input ∧
    (get_token (peek_token lx).2).1.token = (get_token lx).1.token ∧
    (get_token (peek_token lx).2).1.lexeme = (get_token lx).1.lexeme := by
  have hmi := get_token_loop_mode_input (lx.input.length - lx.pos) lx []
  have h2 : (peek_token lx).2 = ⟨lx.state, lx.input, (get_token lx).2.current_line,
      (get_token lx).2.current_col, lx.pos, lx.mode⟩ := by
    have h0 : (peek_token lx).2 = ⟨lx.state, (get_token lx).2.input,
        (get_token lx).2.current_line, (get_token lx).2.current_col, lx.pos,
        (get_token lx).2.mode⟩ := rfl
    rw [h0]
    have hin : (get_token lx).2.input = lx.input := hmi.2
    have hmo : (get_token lx).2.mode = lx.mode := hmi.1
    rw [hin, hmo]
  have hcoords := get_token_loop_coords (lx.input.length - lx.pos) lx.state lx.input lx.mode
    lx.pos [] (get_token lx).2.current_line (get_token lx).2.current_col
    lx.current_line lx.current_col
  refine ⟨rfl, rfl, rfl, hmi.1, hmi.2, ?_, ?_⟩
  · rw [h2]
    exact hcoords.1
  · rw [h2]
    exact hcoords.2.1

/-- `ParserErr` (`src/parser.rs`). -/
structure ParserErr where
  message : String
  token : TokenEntry
  deriving DecidableEq

/-- The mutable parser context (`ParserContext` in `src/parser.rs`): the
lexer plus the tables the recursive-descent routines update in place.
`accepting_nodes` (`HashMap<NodeRef, String>`) is an association list (each
end node is inserted exactly once); `class_lookup_table` (`BTreeMap`) is a
lookup function. -/
structure PState where
  lexer : Lexer
  tree : ParseTree
  leaf_nodes : List Nat
  token_order : List String
  accepting_nodes : List (Nat × String)
  class_lookup_table : String → Option ClassSetEntry

/-- `ParserOutput` (`src/parser.rs`). The source additionally inverts the
disjoint alphabet into per-node input-symbol sets and forces `{#}` for each
end node (`get_node_input_symbols`, `parse` lines 555-561); that inversion
is kept here as the alphabet itself (`none` models the panic of
`get_disjoint_alphabet`), since no verified claim depends on the inverted
form. -/
structure ParserOutput where
  class_lookup_table : String → Option ClassSetEntry
  alphabet : Option (Char → Finset Nat)
  token_order : List String
  end_nodes : List (Nat × String)
  tree : ParseTree

/-- The error used to model exhaustion of the structural recursion bound;
the Rust recursion needs no bound because every cycle of recursive calls
consumes input. A large enough bound never produces it (and the claims
about successful parses are unaffected: fuel exhaustion is a failure). -/
def outOfFuel : ParserErr := ⟨"parser fuel exhausted", ⟨Token.EOI, "", 0, 0⟩⟩

/-- `is_identifier` (`src/parser.rs` lines 48-66): first character ASCII
alphabetic or `_`, rest ASCII alphanumeric or `_`. -/
def is_identifier (lexeme : String) : Bool :=
  match lexeme.data with
  | [] => false
  | c :: rest => (c.isAlpha || c = '_') && rest.all (fun ch => ch.isAlphanum || ch = '_')

/-- `match_c_item` (`src/parser.rs` lines 167-207). A `Characters` item
inserts each of its characters; a `CharacterRange` item `X-Y` rejects
inverted ranges and otherwise inserts code points `X..=Y`
(`char::from_u32(i).unwrap()`; `Char.ofNat` matches it on the valid code
points every lexed range produces). The source's `unwrap` panics (class
name missing, malformed range lexeme) are modelled as errors. -/
def match_c_item (class_name : String) (st : PState) : Except ParserErr (Bool × PState) :=
  let (current_token, glx) := get_token st.lexer
  let st := {st with lexer := glx}
  if current_token.token = Token.Characters then
    (match st.class_lookup_table class_name with
    | none => .error ⟨"panic: class name missing from lookup table", current_token⟩
    | some entry =>
      .ok (true, {st with class_lookup_table := fun k =>
        (if k = class_name then
          some ⟨entry.chars ∪ current_token.lexeme.data.toFinset, entry.operator⟩
        else st.class_lookup_table k)}))
  else if current_token.token = Token.CharacterRange then
    (match current_token.lexeme.data with
    | range_start :: _dash :: range_end :: _ =>
      if range_start.toNat > range_end.toNat then
        .error ⟨"Invalid character range '" ++ current_token.lexeme ++
          "'. Starting character must come before the end character", current_token⟩
      else
        (match st.class_lookup_table class_name with
        | none => .error ⟨"panic: class name missing from lookup table", current_token⟩
        | some entry =>
          .ok (true, {st with class_lookup_table := fun k =>
            (if k = class_name then
              some ⟨entry.chars ∪
                ((List.range' range_start.toNat (range_end.toNat + 1 - range_start.toNat)).map
                  Char.ofNat).toFinset, entry.operator⟩
            else st.class_lookup_table k)}))
    | _ => .error ⟨"panic: CharacterRange lexeme shorter than three characters", current_token⟩)
  else
    .error ⟨"Unexpected token: " ++ current_token.lexeme, current_token⟩

mutual

/-- `match_stmt_list` (`src/parser.rs` lines 70-81). Note the source calls
`peek_token` twice (the first result is discarded), and each call moves the
line/column counters. -/
def match_stmt_list : Nat → PState → Except ParserErr (Bool × PState)
  | 0, _ => .error outOfFuel
  | fuel + 1, st =>
    let (_r1t, r1lx) := peek_token st.lexer
    let st := {st with lexer := r1lx}
    let (r2t, r2lx) := peek_token st.lexer
    let st := {st with lexer := r2lx}
    if r2t.token = Token.EOI then .ok (true, st)
    else do
      let (b, st) ← match_stmt fuel st
      if b then match_stmt_list fuel st else .ok (false, st)

/-- `match_stmt` (`src/parser.rs` lines 86-88): `classStmt || tokenStmt ||
ignoreStmt`, short-circuiting. -/
def match_stmt : Nat → PState → Except ParserErr (Bool × PState)
  | 0, _ => .error outOfFuel
  | fuel + 1, st => do
    let (b1, st) ← match_class_stmt fuel st
    if b1 then .ok (true, st)
    else do
      let (b2, st) ← match_token_stmt fuel st
      if b2 then .ok (true, st)
      else match_ignore_stmt fuel st

/-- `match_class_stmt` (`src/parser.rs` lines 91-149). The closing token may
be `BracketClose` or `DashBracketClose` (line 141); the mismatch message
interpolates `set_start.lexeme`, as in the source. -/
def match_class_stmt : Nat → PState → Except ParserErr (Bool × PState)
  | 0, _ => .error outOfFuel
  | fuel + 1, st =>
    let (pt, plx) := peek_token st.lexer
    let st := {st with lexer := plx}
    if pt.token ≠ Token.Class then .ok (false, st)
    else
      let (gt, glx) := get_token st.lexer
      let st := {st with lexer := glx}
      let (pidt, pidlx) := peek_token st.lexer
      let st := {st with lexer := pidlx}
      if pidt.token ≠ Token.Characters then
        .error ⟨"Unexpected token: '" ++ pidt.lexeme ++ "'", pidt⟩
      else if ¬ is_identifier pidt.lexeme then
        .error ⟨"Invalid class identifier: '" ++ pidt.lexeme ++ "'", pidt⟩
      else
        let (curt, curlx) := get_token st.lexer
        let st := {st with lexer := curlx}
        let (sstartt, sstartlx) := get_token st.lexer
        let st := {st with lexer := sstartlx}
        match hop : sstartt.token with
        | Token.BracketOpen | Token.BracketOpenNegate =>
          let op := if sstartt.token = Token.BracketOpen then ClassSetOperator.Include
            else ClassSetOperator.Negate
          let st := {st with class_lookup_table := fun k =>
            (if k = curt.lexeme then some ⟨∅, op⟩ else st.class_lookup_table k)}
          do
            let (b, st) ← match_c_item_list fuel curt.lexeme st
            if ¬ b then .ok (false, st)
            else
              let (sendt, sendlx) := get_token st.lexer
              let st := {st with lexer := sendlx}
              if sendt.token ≠ Token.BracketClose ∧ sendt.token ≠ Token.DashBracketClose then
                .error ⟨"Expected ']' but found " ++ sstartt.lexeme ++ " instead", sendt⟩
              else .ok (true, st)
        | _ =>
          .error ⟨"Expected '[' but found " ++ sstartt.lexeme ++ " instead", sstartt⟩

/-- `match_c_item_list` (`src/parser.rs` lines 153-163): stops (only) when
the next token peeks as `BracketClose`. -/
def match_c_item_list : Nat → String → PState → Except ParserErr (Bool × PState)
  | 0, _, _ => .error outOfFuel
  | fuel + 1, class_name, st =>
    let (pt, plx) := peek_token st.lexer
    let st := {st with lexer := plx}
    if pt.token = Token.BracketClose then .ok (true, st)
    else do
      let (b, st) ← match_c_item class_name st
      if ¬ b then .ok (false, st)
      else match_c_item_list fuel class_name st

/-- `add_regex_subtree` (`src/parser.rs` lines 209-223): remember the
previous root (the last arena node), parse the statement's regex, and if
both exist union them. -/
def add_regex_subtree : Nat → String → PState → Except ParserErr PState
  | 0, _, _ => .error outOfFuel
  | fuel + 1, token_id, st =>
    let left_node : Option Nat :=
      if st.tree.length > 0 then some (st.tree.length - 1) else none
    do
      let (regex_node, st) ← match_regex_stmt fuel token_id st
      match regex_node, left_node with
      | some node, some left =>
        .ok {st with tree := st.tree ++ [ASTNode.Union left node]}
      | _, _ => .ok st

/-- `match_token_stmt` (`src/parser.rs` lines 226-251). -/
def match_token_stmt : Nat → PState → Except ParserErr (Bool × PState)
  | 0, _ => .error outOfFuel
  | fuel + 1, st =>
    let (pt, plx) := peek_token st.lexer
    let st := {st with lexer := plx}
    if pt.token ≠ Token.Token then .ok (false, st)
    else
      let (gt, glx) := get_token st.lexer
      let st := {st with lexer := glx}
      let (idtt, idtlx) := get_token st.lexer
      let st := {st with lexer := idtlx}
      if idtt.token ≠ Token.Characters then
        .error ⟨"Unexpected token: '" ++ idtt.lexeme ++ "'", idtt⟩
      else if ¬ is_identifier idtt.lexeme then
        .error ⟨"Invalid token identifier: '" ++ idtt.lexeme ++ "'", idtt⟩
      else
        let st := {st with token_order := st.token_order ++ [idtt.lexeme]}
        do
          let st ← add_regex_subtree fuel idtt.lexeme st
          .ok (true, st)

/-- `match_ignore_stmt` (`src/parser.rs` lines 254-263). -/
def match_ignore_stmt : Nat → PState → Except ParserErr (Bool × PState)
  | 0, _ => .error outOfFuel
  | fuel + 1, st =>
    let (pt, plx) := peek_token st.lexer
    let st := {st with lexer := plx}
    if pt.token ≠ Token.Ignore then .ok (false, st)
    else
      let (gt, glx) := get_token st.lexer
      let st := {st with lexer := glx}
      do
        let st ← add_regex_subtree fuel "!" st
        .ok (true, st)

/-- `match_regex_stmt` (`src/parser.rs` lines 266-306): `/ regex /`; a
non-empty regex gets its `#` end node (recorded in the accepting map) and a
`Concat` root. -/
def match_regex_stmt : Nat → String → PState → Except ParserErr (Option Nat × PState)
  | 0, _, _ => .error outOfFuel
  | fuel + 1, token_id, st =>
    let (rbt, rblx) := get_token st.lexer
    let st := {st with lexer := rblx}
    if rbt.token ≠ Token.ForwardSlash then
      .error ⟨"Unexpected token: '" ++ rbt.lexeme ++
        "'. Regex definitions must start with '/'.", rbt⟩
    else do
      let (regex_node, st) ← match_regex fuel st
      let pr : Option Nat × PState :=
        match regex_node with
        | some node =>
          let end_node := st.tree.length
          let st := {st with
            tree := st.tree ++ [ASTNode.Character '#'],
            accepting_nodes := st.accepting_nodes ++ [(end_node, token_id)]}
          (some st.tree.length, {st with tree := st.tree ++ [ASTNode.Concat node end_node]})
        | none => (none, st)
      let (regex_root, st) := pr
      let (ret, relx) := get_token st.lexer
      let st := {st with lexer := relx}
      if ret.token ≠ Token.ForwardSlash then
        .error ⟨"Unexpected token: '" ++ ret.lexeme ++
          "'. Regex definitions must end with '/'.", ret⟩
      else .ok (regex_root, st)

/-- `match_regex` (`src/parser.rs` lines 310-335): `rTerm ('|' regex)?`,
with a dangling `|` an error. -/
def match_regex : Nat → PState → Except ParserErr (Option Nat × PState)
  | 0, _ => .error outOfFuel
  | fuel + 1, st => do
    let (rterm, st) ← match_rterm fuel st
    match rterm with
    | none => .ok (none, st)
    | some rterm_node =>
      let (pt, plx) := peek_token st.lexer
      let st := {st with lexer := plx}
      if pt.token ≠ Token.Pipe then .ok (some rterm_node, st)
      else
        let (pipet, pipelx) := get_token st.lexer
        let st := {st with lexer := pipelx}
        do
          let (right, st) ← match_regex fuel st
          match right with
          | some right_node =>
            .ok (some st.tree.length,
              {st with tree := st.tree ++ [ASTNode.Union rterm_node right_node]})
          | none => .error ⟨"Unexpected end of regex.", pipet⟩

/-- `match_rterm` (`src/parser.rs` lines 339-354): juxtaposition becomes
`Concat`. -/
def match_rterm : Nat → PState → Except ParserErr (Option Nat × PState)
  | 0, _ => .error outOfFuel
  | fuel + 1, st => do
    let (rclosure, st) ← match_rclosure fuel st
    match rclosure with
    | none => .ok (none, st)
    | some rclosure_node => do
      let (right, st) ← match_rterm fuel st
      match right with
      | some right_node =>
        .ok (some st.tree.length,
          {st with tree := st.tree ++ [ASTNode.Concat rclosure_node right_node]})
      | none => .ok (some rclosure_node, st)

/-- `match_rclosure` (`src/parser.rs` lines 360-382): optional `* + ?`. -/
def match_rclosure : Nat → PState → Except ParserErr (Option Nat × PState)
  | 0, _ => .error outOfFuel
  | fuel + 1, st => do
    let (rfactor, st) ← match_rfactor fuel st
    match rfactor with
    | none => .ok (none, st)
    | some rfactor_node =>
      let (pt, plx) := peek_token st.lexer
      let st := {st with lexer := plx}
      let op : Option ASTNode :=
        match pt.token with
        | Token.Star => some (ASTNode.Star rfactor_node)
        | Token.Plus => some (ASTNode.Plus rfactor_node)
        | Token.Question => some (ASTNode.Question rfactor_node)
        | _ => none
      match op with
      | none => .ok (some rfactor_node, st)
      | some node =>
        let (gt, glx) := get_token st.lexer
        let st := {st with lexer := glx}
        .ok (some st.tree.length, {st with tree := st.tree ++ [node]})

/-- `match_rfactor` (`src/parser.rs` lines 387-463): the parser toggles the
lexer into `Regex` mode around the peek (and around the consuming get of a
character atom); the multi-character-lexeme assertion is modelled as an
error. -/
def match_rfactor : Nat → PState → Except ParserErr (Option Nat × PState)
  | 0, _ => .error outOfFuel
  | fuel + 1, st =>
    let st := {st with lexer := {st.lexer with mode := LexerMode.Regex}}
    let (pt, plx) := peek_token st.lexer
    let st := {st with lexer := {plx with mode := LexerMode.Default}}
    match pt.token with
    | Token.Characters =>
      if pt.lexeme.length ≠ 1 then
        .error ⟨"panic: multiple characters in single char capture mode", pt⟩
      else
        let st := {st with lexer := {st.lexer with mode := LexerMode.Regex}}
        let (gt, glx) := get_token st.lexer
        let st := {st with lexer := {glx with mode := LexerMode.Default}}
        match pt.lexeme.data.head? with
        | none => .error ⟨"panic: empty Characters lexeme", pt⟩
        | some node_char =>
          if node_char.toNat > 127 then
            .error ⟨"Unsupported character '" ++ String.mk [node_char] ++
              "' in regex expression.", pt⟩
          else
            .ok (some st.tree.length,
              {st with
                tree := st.tree ++ [ASTNode.Character node_char],
                leaf_nodes := st.leaf_nodes ++ [st.tree.length]})
    | Token.BracketOpen =>
      let (gt, glx) := get_token st.lexer
      let st := {st with lexer := glx}
      let (idtt, idtlx) := get_token st.lexer
      let st := {st with lexer := idtlx}
      if idtt.token ≠ Token.Characters then .ok (none, st)
      else if (st.class_lookup_table idtt.lexeme).isNone then
        .error ⟨"Undefined class identifier '" ++ idtt.lexeme ++ "'", idtt⟩
      else
        let (bct, bclx) := get_token st.lexer
        let st := {st with lexer := bclx}
        if bct.token ≠ Token.BracketClose then
          .error ⟨"Expected closing ']' for character class reference. Got '" ++
            bct.lexeme ++ "' instead.", bct⟩
        else
          .ok (some st.tree.length,
            {st with
              tree := st.tree ++ [ASTNode.Id idtt.lexeme],
              leaf_nodes := st.leaf_nodes ++ [st.tree.length]})
    | Token.ParenOpen =>
      let (gt, glx) := get_token st.lexer
      let st := {st with lexer := glx}
      do
        let (inner, st) ← match_regex fuel st
        match inner with
        | none => .ok (none, st)
        | some inner_node =>
          let (cpt, cplx) := get_token st.lexer
          let st := {st with lexer := cplx}
          if cpt.token = Token.ParenClose then .ok (some inner_node, st)
          else
            .error ⟨"Expected closing ')' for regex. Got '" ++ cpt.lexeme ++
              "' instead.", cpt⟩
    | _ => .ok (none, st)

end

/-- `parse` (`src/parser.rs` lines 525-570): run the statement list, append
the `!` ignore sentinel to the token order unconditionally, and — when the
arena is non-empty — append the final `Character('#')` and the augmenting
`Concat` root, then derive the disjoint alphabet. -/
def parse (fuel : Nat) (lexer : Lexer) : Except ParserErr ParserOutput :=
  match match_stmt_list fuel ⟨lexer, [], [], [], [], fun _ => none⟩ with
  | .error e => .error e
  | .ok (_, st) =>
    let token_order := st.token_order ++ ["!"]
    let tree :=
      if st.tree.length > 0 then
        (st.tree ++ [ASTNode.Character '#']) ++
          [ASTNode.Concat (st.tree.length - 1) st.tree.length]
      else st.tree
    .ok ⟨st.class_lookup_table,
      get_disjoint_alphabet st.leaf_nodes tree st.class_lookup_table,
      token_order, st.accepting_nodes, tree⟩

set_option maxHeartbeats 8000000 in
/-- C5: the claim fails on the code. The lexer fuses a freestanding `-`
followed by `]` into a single `DashBracketClose` token, and
`match_class_stmt` (line 141) accepts that token as the class terminator —
but `match_c_item_list` stops only when it peeks `BracketClose`, so the
`DashBracketClose` ending the body `[a -]` reaches `match_c_item`, which
rejects it: `parse` returns the error `Unexpected token: -]` instead of
succeeding. (The claim's other lexing of a trailing dash, `[a-]`, fares no
better: `a-]` lexes as the single `CharacterRange` lexeme `a-]`, an
inverted range.) -/
theorem C5_trailing_dash_class_rejected :
    parse 200 (Lexer.from_string "class x [a -]") =
      .error ⟨"Unexpected token: -]", ⟨Token.DashBracketClose, "-]", 0, 32⟩⟩ := rfl

/-- Character list of the input `token X /` newline `/`, whose regex body is
empty. The step lemmas that follow evaluate `parse` on it one parser
procedure at a time (each records the lexer state a call leaves behind), so
that the final results compose by rewriting instead of one monolithic
kernel evaluation. -/
def inpX : List Char := "token X /\n/".data

theorem pX9_peek0 : peek_token (Lexer.from_string "token X /\n/") =
    (⟨Token.Token, "token", 0, 0⟩, ⟨State.Initial, inpX, 0, 5, 0, LexerMode.Default⟩) := rfl

theorem pX9_peek1 : peek_token ⟨State.Initial, inpX, 0, 5, 0, LexerMode.Default⟩ =
    (⟨Token.Token, "token", 0, 5⟩, ⟨State.Initial, inpX, 0, 10, 0, LexerMode.Default⟩) := rfl

theorem pX9_class : match_class_stmt 98
    ⟨⟨State.Initial, inpX, 0, 10, 0, LexerMode.Default⟩, [], [], [], [], fun _ => none⟩ =
    .ok (false, ⟨⟨State.Initial, inpX, 0, 15, 0, LexerMode.Default⟩, [], [], [], [],
      fun _ => none⟩) := rfl

theorem pX9_peek3 : peek_token ⟨State.Initial, inpX, 0, 15, 0, LexerMode.Default⟩ =
    (⟨Token.Token, "token", 0, 15⟩, ⟨State.Initial, inpX, 0, 20, 0, LexerMode.Default⟩) := rfl

theorem pX9_get3a : get_token ⟨State.Initial, inpX, 0, 20, 0, LexerMode.Default⟩ =
    (⟨Token.Token, "token", 0, 20⟩, ⟨State.Initial, inpX, 0, 25, 5, LexerMode.Default⟩) := rfl

theorem pX9_get3b : get_token ⟨State.Initial, inpX, 0, 25, 5, LexerMode.Default⟩ =
    (⟨Token.Characters, "X", 0, 26⟩, ⟨State.Initial, inpX, 0, 27, 7, LexerMode.Default⟩) := rfl

theorem pX9_get_fs : get_token ⟨State.Initial, inpX, 0, 27, 7, LexerMode.Default⟩ =
    (⟨Token.ForwardSlash, "/", 0, 28⟩, ⟨State.Initial, inpX, 0, 29, 9, LexerMode.Default⟩) := rfl

theorem pX9_regex : match_regex 95
    ⟨⟨State.Initial, inpX, 0, 29, 9, LexerMode.Default⟩, [], [], ["X"], [], fun _ => none⟩ =
    .ok (none, ⟨⟨State.Initial, inpX, 1, 1, 9, LexerMode.Default⟩, [], [], ["X"], [],
      fun _ => none⟩) := rfl

set_option maxHeartbeats 1000000 in
theorem pX9_regex_stmt : match_regex_stmt 96 "X"
    ⟨⟨State.Initial, inpX, 0, 27, 7, LexerMode.Default⟩, [], [], ["X"], [], fun _ => none⟩ =
    .ok (none, ⟨⟨State.Dash, inpX, 2, 1, 11, LexerMode.Default⟩, [], [], ["X"], [],
      fun _ => none⟩) := by
  show match_regex_stmt (95+1) "X" _ = _
  conv_lhs => rw [match_regex_stmt]
  rw [pX9_get_fs]
  dsimp only
  rw [if_neg (show ¬(Token.ForwardSlash ≠ Token.ForwardSlash) by decide)]
  rw [pX9_regex]
  rfl

set_option maxHeartbeats 1000000 in
theorem pX9_add : add_regex_subtree 97 "X"
    ⟨⟨State.Initial, inpX, 0, 27, 7, LexerMode.Default⟩, [], [], ["X"], [], fun _ => none⟩ =
    .ok ⟨⟨State.Dash, inpX, 2, 1, 11, LexerMode.Default⟩, [], [], ["X"], [],
      fun _ => none⟩ := by
  show add_regex_subtree (96+1) "X" _ = _
  conv_lhs => rw [add_regex_subtree]
  rw [pX9_regex_stmt]
  rfl

set_option maxHeartbeats 1000000 in
theorem pX9_token_stmt : match_token_stmt 98
    ⟨⟨State.Initial, inpX, 0, 15, 0, LexerMode.Default⟩, [], [], [], [], fun _ => none⟩ =
    .ok (true, ⟨⟨State.Dash, inpX, 2, 1, 11, LexerMode.Default⟩, [], [], ["X"], [],
      fun _ => none⟩) := by
  show match_token_stmt (97+1) _ = _
  conv_lhs => rw [match_token_stmt]
  rw [pX9_peek3]
  dsimp only
  rw [if_neg (show ¬(Token.Token ≠ Token.Token) by decide)]
  rw [pX9_get3a]
  dsimp only
  rw [pX9_get3b]
  dsimp only
  rw [if_neg (show ¬(Token.Characters ≠ Token.Characters) by decide)]
  rw [if_neg (show ¬¬(is_identifier "X" = true) by decide)]
  rw [List.nil_append]
  rw [pX9_add]
  rfl

set_option maxHeartbeats 1000000 in
theorem pX9_stmt : match_stmt 99
    ⟨⟨State.Initial, inpX, 0, 10, 0, LexerMode.Default⟩, [], [], [], [], fun _ => none⟩ =
    .ok (true, ⟨⟨State.Dash, inpX, 2, 1, 11, LexerMode.Default⟩, [], [], ["X"], [],
      fun _ => none⟩) := by
  show match_stmt (98+1) _ = _
  conv_lhs => rw [match_stmt]
  rw [pX9_class]
  dsimp only [bind, Except.instMonad, Except.bind]
  rw [pX9_token_stmt]
  rfl

theorem pX9_stmt_list_tail : match_stmt_list 99
    ⟨⟨State.Dash, inpX, 2, 1, 11, LexerMode.Default⟩, [], [], ["X"], [], fun _ => none⟩ =
    .ok (true, ⟨⟨State.Dash, inpX, 2, 1, 11, LexerMode.Default⟩, [], [], ["X"], [],
      fun _ => none⟩) := rfl

set_option maxHeartbeats 1000000 in
theorem pX9_stmt_list : match_stmt_list 100
    ⟨Lexer.from_string "token X /\n/", [], [], [], [], fun _ => none⟩ =
    .ok (true, ⟨⟨State.Dash, inpX, 2, 1, 11, LexerMode.Default⟩, [], [], ["X"], [],
      fun _ => none⟩) := by
  show match_stmt_list (99+1) _ = _
  conv_lhs => rw [match_stmt_list]
  rw [pX9_peek0]
  dsimp only
  rw [pX9_peek1]
  dsimp only
  rw [if_neg (show ¬(Token.Token = Token.EOI) by decide)]
  dsimp only [bind, Except.instMonad, Except.bind]
  rw [pX9_stmt]
  dsimp only
  rw [pX9_stmt_list_tail]
  rfl

set_option maxHeartbeats 1000000 in
/-- C9: the claim fails on the code as stated. `token X /` newline `/` is an
input containing a token statement on which `parse` succeeds — the regex
body is empty, so `match_regex` returns no node, no `#` leaf or `Concat` is
ever added, and the arena stays empty: there is no last node at all (while
the token-order list does end with `!`). -/
theorem C9_empty_regex_counterexample :
    (parse 100 (Lexer.from_string "token X /\n/")).toOption.map
      (fun out => (out.token_order, out.tree)) = some (["X", "!"], []) := by
  unfold parse
  rw [pX9_stmt_list]
  rfl

/-- C9 (amended): after `parse` returns successfully, the token-order list
ends with the sentinel `!` (appended unconditionally), and whenever the
resulting arena is non-empty (which an input whose token/ignore statements
have non-empty regex bodies guarantees), its last node is a `Concat` whose
right child is a `Character('#')` leaf. -/
theorem C9_parse_appends_terminators {fuel : Nat} {lexer : Lexer} {out : ParserOutput}
    (hout : parse fuel lexer = .ok out) :
    out.token_order.getLast? = some "!" ∧
    (out.tree ≠ [] → ∃ l r, out.tree.getLast? = some (ASTNode.Concat l r) ∧
      out.tree[r]? = some (ASTNode.Character '#')) := by
  unfold parse at hout
  split at hout
  · exact absurd hout (by simp)
  · cases hout
    rename_i b st heq
    constructor
    · exact List.getLast?_concat _
    · intro hne
      dsimp only at hne ⊢
      by_cases hlen : st.tree.length > 0
      · rw [if_pos hlen] at hne ⊢
        refine ⟨st.tree.length - 1, st.tree.length, ?_, ?_⟩
        · exact List.getLast?_concat _
        · rw [List.append_assoc, List.getElem?_append_right (Nat.le_refl _)]
          simp
      · rw [if_neg hlen] at hne
        exact absurd (List.length_eq_zero.mp (Nat.eq_zero_of_not_pos hlen)) hne


/-- Character list of the input `token A /a/`, a one-statement grammar with
a non-empty regex body; evaluated stage by stage like `inpX` above. -/
def inpA : List Char := "token A /a/".data

theorem pA_peek0 : peek_token (Lexer.from_string "token A /a/") =
    (⟨Token.Token, "token", 0, 0⟩, ⟨State.Initial, inpA, 0, 5, 0, LexerMode.Default⟩) := rfl

theorem pA_peek1 : peek_token ⟨State.Initial, inpA, 0, 5, 0, LexerMode.Default⟩ =
    (⟨Token.Token, "token", 0, 5⟩, ⟨State.Initial, inpA, 0, 10, 0, LexerMode.Default⟩) := rfl

theorem pA_class : match_class_stmt 98
    ⟨⟨State.Initial, inpA, 0, 10, 0, LexerMode.Default⟩, [], [], [], [], fun _ => none⟩ =
    .ok (false, ⟨⟨State.Initial, inpA, 0, 15, 0, LexerMode.Default⟩, [], [], [], [],
      fun _ => none⟩) := rfl

theorem pA_peek3 : peek_token ⟨State.Initial, inpA, 0, 15, 0, LexerMode.Default⟩ =
    (⟨Token.Token, "token", 0, 15⟩, ⟨State.Initial, inpA, 0, 20, 0, LexerMode.Default⟩) := rfl

theorem pA_get3a : get_token ⟨State.Initial, inpA, 0, 20, 0, LexerMode.Default⟩ =
    (⟨Token.Token, "token", 0, 20⟩, ⟨State.Initial, inpA, 0, 25, 5, LexerMode.Default⟩) := rfl

theorem pA_get3b : get_token ⟨State.Initial, inpA, 0, 25, 5, LexerMode.Default⟩ =
    (⟨Token.Characters, "A", 0, 26⟩, ⟨State.Initial, inpA, 0, 27, 7, LexerMode.Default⟩) := rfl

theorem pA_get_fs : get_token ⟨State.Initial, inpA, 0, 27, 7, LexerMode.Default⟩ =
    (⟨Token.ForwardSlash, "/", 0, 28⟩, ⟨State.Initial, inpA, 0, 29, 9, LexerMode.Default⟩) := rfl

set_option maxHeartbeats 1000000 in
theorem pA_rfactor92 : match_rfactor 92
    ⟨⟨State.Initial, inpA, 0, 29, 9, LexerMode.Default⟩, [], [], ["A"], [], fun _ => none⟩ =
    .ok (some 0, ⟨⟨State.Initial, inpA, 0, 31, 10, LexerMode.Default⟩,
      [ASTNode.Character 'a'], [0], ["A"], [], fun _ => none⟩) := rfl

theorem pA_peekStar : peek_token ⟨State.Initial, inpA, 0, 31, 10, LexerMode.Default⟩ =
    (⟨Token.ForwardSlash, "/", 0, 31⟩, ⟨State.Initial, inpA, 0, 32, 10, LexerMode.Default⟩) := rfl

set_option maxHeartbeats 1000000 in
theorem pA_rclosure93 : match_rclosure 93
    ⟨⟨State.Initial, inpA, 0, 29, 9, LexerMode.Default⟩, [], [], ["A"], [], fun _ => none⟩ =
    .ok (some 0, ⟨⟨State.Initial, inpA, 0, 32, 10, LexerMode.Default⟩,
      [ASTNode.Character 'a'], [0], ["A"], [], fun _ => none⟩) := by
  show match_rclosure (92+1) _ = _
  conv_lhs => rw [match_rclosure]
  rw [pA_rfactor92]
  dsimp only [bind, Except.instMonad, Except.bind]
  rw [pA_peekStar]

set_option maxHeartbeats 1000000 in
theorem pA_rfactor91 : match_rfactor 91
    ⟨⟨State.Initial, inpA, 0, 32, 10, LexerMode.Default⟩,
      [ASTNode.Character 'a'], [0], ["A"], [], fun _ => none⟩ =
    .ok (none, ⟨⟨State.Initial, inpA, 0, 33, 10, LexerMode.Default⟩,
      [ASTNode.Character 'a'], [0], ["A"], [], fun _ => none⟩) := rfl

set_option maxHeartbeats 1000000 in
theorem pA_rclosure92 : match_rclosure 92
    ⟨⟨State.Initial, inpA, 0, 32, 10, LexerMode.Default⟩,
      [ASTNode.Character 'a'], [0], ["A"], [], fun _ => none⟩ =
    .ok (none, ⟨⟨State.Initial, inpA, 0, 33, 10, LexerMode.Default⟩,
      [ASTNode.Character 'a'], [0], ["A"], [], fun _ => none⟩) := by
  show match_rclosure (91+1) _ = _
  conv_lhs => rw [match_rclosure]
  rw [pA_rfactor91]
  rfl

set_option maxHeartbeats 1000000 in
theorem pA_rterm93 : match_rterm 93
    ⟨⟨State.Initial, inpA, 0, 32, 10, LexerMode.Default⟩,
      [ASTNode.Character 'a'], [0], ["A"], [], fun _ => none⟩ =
    .ok (none, ⟨⟨State.Initial, inpA, 0, 33, 10, LexerMode.Default⟩,
      [ASTNode.Character 'a'], [0], ["A"], [], fun _ => none⟩) := by
  show match_rterm (92+1) _ = _
  conv_lhs => rw [match_rterm]
  rw [pA_rclosure92]
  rfl

set_option maxHeartbeats 1000000 in
theorem pA_rterm94 : match_rterm 94
    ⟨⟨State.Initial, inpA, 0, 29, 9, LexerMode.Default⟩, [], [], ["A"], [], fun _ => none⟩ =
    .ok (some 0, ⟨⟨State.Initial, inpA, 0, 33, 10, LexerMode.Default⟩,
      [ASTNode.Character 'a'], [0], ["A"], [], fun _ => none⟩) := by
  show match_rterm (93+1) _ = _
  conv_lhs => rw [match_rterm]
  rw [pA_rclosure93]
  dsimp only [bind, Except.instMonad, Except.bind]
  rw [pA_rterm93]

theorem pA_peekPipe : peek_token ⟨State.Initial, inpA, 0, 33, 10, LexerMode.Default⟩ =
    (⟨Token.ForwardSlash, "/", 0, 33⟩, ⟨State.Initial, inpA, 0, 34, 10, LexerMode.Default⟩) := rfl

set_option maxHeartbeats 1000000 in
theorem pA_regex : match_regex 95
    ⟨⟨State.Initial, inpA, 0, 29, 9, LexerMode.Default⟩, [], [], ["A"], [], fun _ => none⟩ =
    .ok (some 0, ⟨⟨State.Initial, inpA, 0, 34, 10, LexerMode.Default⟩,
      [ASTNode.Character 'a'], [0], ["A"], [], fun _ => none⟩) := by
  show match_regex (94+1) _ = _
  conv_lhs => rw [match_regex]
  rw [pA_rterm94]
  dsimp only [bind, Except.instMonad, Except.bind]
  rw [pA_peekPipe]
  rfl

set_option maxHeartbeats 1000000 in
theorem pA_regex_stmt : match_regex_stmt 96 "A"
    ⟨⟨State.Initial, inpA, 0, 27, 7, LexerMode.Default⟩, [], [], ["A"], [], fun _ => none⟩ =
    .ok (some 2, ⟨⟨State.Dash, inpA, 0, 35, 11, LexerMode.Default⟩,
      [ASTNode.Character 'a', ASTNode.Character '#', ASTNode.Concat 0 1], [0], ["A"],
      [(1, "A")], fun _ => none⟩) := by
  show match_regex_stmt (95+1) "A" _ = _
  conv_lhs => rw [match_regex_stmt]
  rw [pA_get_fs]
  dsimp only
  rw [if_neg (show ¬(Token.ForwardSlash ≠ Token.ForwardSlash) by decide)]
  rw [pA_regex]
  rfl

set_option maxHeartbeats 1000000 in
theorem pA_add : add_regex_subtree 97 "A"
    ⟨⟨State.Initial, inpA, 0, 27, 7, LexerMode.Default⟩, [], [], ["A"], [], fun _ => none⟩ =
    .ok ⟨⟨State.Dash, inpA, 0, 35, 11, LexerMode.Default⟩,
      [ASTNode.Character 'a', ASTNode.Character '#', ASTNode.Concat 0 1], [0], ["A"],
      [(1, "A")], fun _ => none⟩ := by
  show add_regex_subtree (96+1) "A" _ = _
  conv_lhs => rw [add_regex_subtree]
  rw [pA_regex_stmt]
  rfl

set_option maxHeartbeats 1000000 in
theorem pA_token_stmt : match_token_stmt 98
    ⟨⟨State.Initial, inpA, 0, 15, 0, LexerMode.Default⟩, [], [], [], [], fun _ => none⟩ =
    .ok (true, ⟨⟨State.Dash, inpA, 0, 35, 11, LexerMode.Default⟩,
      [ASTNode.Character 'a', ASTNode.Character '#', ASTNode.Concat 0 1], [0], ["A"],
      [(1, "A")], fun _ => none⟩) := by
  show match_token_stmt (97+1) _ = _
  conv_lhs => rw [match_token_stmt]
  rw [pA_peek3]
  dsimp only
  rw [if_neg (show ¬(Token.Token ≠ Token.Token) by decide)]
  rw [pA_get3a]
  dsimp only
  rw [pA_get3b]
  dsimp only
  rw [if_neg (show ¬(Token.Characters ≠ Token.Characters) by decide)]
  rw [if_neg (show ¬¬(is_identifier "A" = true) by decide)]
  rw [List.nil_append]
  rw [pA_add]
  rfl

set_option maxHeartbeats 1000000 in
theorem pA_stmt : match_stmt 99
    ⟨⟨State.Initial, inpA, 0, 10, 0, LexerMode.Default⟩, [], [], [], [], fun _ => none⟩ =
    .ok (true, ⟨⟨State.Dash, inpA, 0, 35, 11, LexerMode.Default⟩,
      [ASTNode.Character 'a', ASTNode.Character '#', ASTNode.Concat 0 1], [0], ["A"],
      [(1, "A")], fun _ => none⟩) := by
  show match_stmt (98+1) _ = _
  conv_lhs => rw [match_stmt]
  rw [pA_class]
  dsimp only [bind, Except.instMonad, Except.bind]
  rw [pA_token_stmt]
  rfl

theorem pA_stmt_list_tail : match_stmt_list 99
    ⟨⟨State.Dash, inpA, 0, 35, 11, LexerMode.Default⟩,
      [ASTNode.Character 'a', ASTNode.Character '#', ASTNode.Concat 0 1], [0], ["A"],
      [(1, "A")], fun _ => none⟩ =
    .ok (true, ⟨⟨State.Dash, inpA, 0, 35, 11, LexerMode.Default⟩,
      [ASTNode.Character 'a', ASTNode.Character '#', ASTNode.Concat 0 1], [0], ["A"],
      [(1, "A")], fun _ => none⟩) := rfl

set_option maxHeartbeats 1000000 in
theorem pA_stmt_list : match_stmt_list 100
    ⟨Lexer.from_string "token A /a/", [], [], [], [], fun _ => none⟩ =
    .ok (true, ⟨⟨State.Dash, inpA, 0, 35, 11, LexerMode.Default⟩,
      [ASTNode.Character 'a', ASTNode.Character '#', ASTNode.Concat 0 1], [0], ["A"],
      [(1, "A")], fun _ => none⟩) := by
  show match_stmt_list (99+1) _ = _
  conv_lhs => rw [match_stmt_list]
  rw [pA_peek0]
  dsimp only
  rw [pA_peek1]
  dsimp only
  rw [if_neg (show ¬(Token.Token = Token.EOI) by decide)]
  dsimp only [bind, Except.instMonad, Except.bind]
  rw [pA_stmt]
  dsimp only
  rw [pA_stmt_list_tail]
  rfl

set_option maxHeartbeats 1000000 in
theorem pA_parse : parse 100 (Lexer.from_string "token A /a/") =
    .ok ⟨fun _ => none,
      get_disjoint_alphabet [0]
        [ASTNode.Character 'a', ASTNode.Character '#', ASTNode.Concat 0 1,
         ASTNode.Character '#', ASTNode.Concat 2 3] (fun _ => none),
      ["A", "!"], [(1, "A")],
      [ASTNode.Character 'a', ASTNode.Character '#', ASTNode.Concat 0 1,
       ASTNode.Character '#', ASTNode.Concat 2 3]⟩ := by
  unfold parse
  rw [pA_stmt_list]
  rfl

theorem C9_parse_appends_terminators_witness :
    ∃ out, parse 100 (Lexer.from_string "token A /a/") = .ok out ∧
      out.token_order.getLast? = some "!" ∧
      (out.tree ≠ [] → ∃ l r, out.tree.getLast? = some (ASTNode.Concat l r) ∧
        out.tree[r]? = some (ASTNode.Character '#')) :=
  ⟨_, pA_parse, C9_parse_appends_terminators pA_parse⟩

/-- Code points below the surrogate gap round-trip through `Char.ofNat`. -/
theorem char_toNat_ofNat {n : Nat} (h : n < 55296) : (Char.ofNat n).toNat = n := by
  have hv : Nat.isValidChar n := Or.inl h
  simp [Char.ofNat, hv, Char.ofNatAux, Char.toNat, UInt32.toNat, UInt32.ofNatTruncate]

/-- C7: when the next token is a `CharacterRange` with lexeme `X-Y` (every
lexed range lies below the surrogate gap, kept here as the bound on `Y`)
and the class is present in the lookup table: if `X ≤ Y` (code points),
`match_c_item` succeeds and the class entry now holds exactly its old
characters plus those with code points in `[X, Y]`, with the operator
unchanged; if `Y < X`, it returns the `Invalid character range` error — no
updated state escapes, so the class set is not extended by the item. -/
theorem C7_character_range {st : PState} {class_name : String} {X Y : Char}
    {entry : ClassSetEntry}
    (htok : (get_token st.lexer).1.token = Token.CharacterRange)
    (hlex : (get_token st.lexer).1.lexeme = String.mk [X, '-', Y])
    (hcls : st.class_lookup_table class_name = some entry)
    (hY : Y.toNat < 55296) :
    (X.toNat ≤ Y.toNat →
      ∃ st', match_c_item class_name st = .ok (true, st') ∧
        ∃ entry', st'.class_lookup_table class_name = some entry' ∧
          entry'.operator = entry.operator ∧
          ∀ c : Char, c ∈ entry'.chars ↔
            (c ∈ entry.chars ∨ (X.toNat ≤ c.toNat ∧ c.toNat ≤ Y.toNat))) ∧
    (Y.toNat < X.toNat →
      match_c_item class_name st = .error
        ⟨"Invalid character range '" ++ (get_token st.lexer).1.lexeme ++
          "'. Starting character must come before the end character",
         (get_token st.lexer).1⟩) := by
  unfold match_c_item
  cases hg : get_token st.lexer with
  | mk ct glx =>
    rw [hg] at htok hlex
    dsimp only at htok hlex ⊢
    rw [htok, hlex]
    rw [if_neg (show ¬(Token.CharacterRange = Token.Characters) by decide)]
    rw [if_pos (show Token.CharacterRange = Token.CharacterRange from rfl)]
    dsimp only
    constructor
    · intro hle
      rw [if_neg (Nat.not_lt.mpr hle)]
      rw [hcls]
      dsimp only
      refine ⟨_, rfl,
        ⟨entry.chars ∪ ((List.range' X.toNat (Y.toNat + 1 - X.toNat)).map
          Char.ofNat).toFinset, entry.operator⟩, ?_, rfl, fun c => ?_⟩
      · dsimp only
        rw [if_pos rfl]
      · dsimp only
        rw [Finset.mem_union, List.mem_toFinset, List.mem_map]
        constructor
        · rintro (hc | ⟨n, hn, hcn⟩)
          · exact Or.inl hc
          · right
            rw [List.mem_range'_1] at hn
            have hn2 : n < 55296 := by omega
            rw [← hcn, char_toNat_ofNat hn2]
            omega
        · rintro (hc | ⟨h1, h2⟩)
          · exact Or.inl hc
          · refine Or.inr ⟨c.toNat, ?_, Char.ofNat_toNat c⟩
            rw [List.mem_range'_1]
            omega
    · intro hgt
      rw [if_pos (show X.toNat > Y.toNat from hgt)]

theorem C7_character_range_witness :
    ∃ st', match_c_item "cls"
        ⟨Lexer.from_string "a-c]", [], [], [], [],
          fun k => if k = "cls" then some ⟨∅, ClassSetOperator.Include⟩ else none⟩ =
      .ok (true, st') ∧
      ∃ entry', st'.class_lookup_table "cls" = some entry' ∧
        entry'.operator = ClassSetOperator.Include ∧
        ∀ c : Char, c ∈ entry'.chars ↔
          (c ∈ (∅ : Finset Char) ∨ ('a'.toNat ≤ c.toNat ∧ c.toNat ≤ 'c'.toNat)) :=
  (@C7_character_range
    ⟨Lexer.from_string "a-c]", [], [], [], [],
      fun k => if k = "cls" then some ⟨∅, ClassSetOperator.Include⟩ else none⟩
    "cls" 'a' 'c' ⟨∅, ClassSetOperator.Include⟩ (by decide) (by decide) rfl (by decide)).1
    (by decide)

end LagRust
